import Mathlib

/-!
Verification development for the apple_ocr pipeline.

The definitions below are a shallow embedding of the Python sources:
  apple_ocr/ocr_client.py      (SwiftOCRClient: reader, collect_results, stop, send_image)
  apple_ocr/api.py             (AppleOCR.extract_text aggregation)
  apple_ocr/overlay_builder.py (OverlayComposer: _norm_to_points, write_final)
  apple_ocr/pdf_to_images.py   (render_pdf_stream, _extract_embedded_images)
  apple_ocr/page_parser.py     (PageRangeParser.parse_page_ranges / format_page_ranges)

Conventions of the embedding:
  - Python str is modelled as List Char; float coordinates as ℚ; int as ℤ
    (counts that are lengths of lists are ℕ).
  - Real time, threads and the OS are modelled by explicit observation
    streams: each iteration of a blocking loop consumes one observation
    recording what the loop saw (subprocess poll value, queue.get outcome).
  - Fallible code returns Except; code that catches every exception and
    returns None is modelled as a total function into Option.
-/

namespace AppleOCR

/-! ### Decimal rendering and parsing of numbers (Python str(n) / int(s)) -/

/-- The decimal digit character for a value 0..9 (values ≥ 9 all map to '9';
only applied to values < 10). -/
def digitChar : ℕ → Char
  | 0 => '0' | 1 => '1' | 2 => '2' | 3 => '3' | 4 => '4'
  | 5 => '5' | 6 => '6' | 7 => '7' | 8 => '8' | _ => '9'

/-- Numeric value of a decimal digit character. -/
def digitVal (c : Char) : ℕ := c.toNat - 48

/-- ASCII decimal digit test: models the regex class \d as used by
page_parser.py on ASCII input. -/
def isDigitChar (c : Char) : Bool := decide (48 ≤ c.toNat ∧ c.toNat ≤ 57)

/-- Decimal rendering with explicit fuel (structural recursion so that the
function computes inside the kernel); fuel n+1 always suffices for n. -/
def natToCharsAux : ℕ → ℕ → List Char
  | 0, _ => []
  | fuel + 1, n =>
    if n < 10 then [digitChar n]
    else natToCharsAux fuel (n / 10) ++ [digitChar (n % 10)]

/-- Decimal rendering of a natural number, as Python str(n). -/
def natToChars (n : ℕ) : List Char := natToCharsAux (n + 1) n

/-- Decimal rendering of an integer, as Python str(n). -/
def intToChars (n : ℤ) : List Char :=
  if n < 0 then '-' :: natToChars n.natAbs else natToChars n.toNat

/-- Decimal parsing of a digit string, as Python int(s) on a \d+ match. -/
def charsToNat (s : List Char) : ℕ := s.foldl (fun acc c => 10 * acc + digitVal c) 0

/-! ### String helpers (split / strip) -/

/-- Python s.split(sep) for a one-character separator: splitting the empty
string gives one empty part, and consecutive separators give empty parts. -/
def splitChar (sep : Char) : List Char → List (List Char)
  | [] => [[]]
  | c :: cs =>
    if c = sep then [] :: splitChar sep cs
    else
      match splitChar sep cs with
      | [] => [c] :: []
      | p :: ps => (c :: p) :: ps

/-- ASCII whitespace test (the characters str.strip removes on the ASCII
strings this program produces and consumes). -/
def isPySpace (c : Char) : Bool :=
  decide (c = ' ' ∨ c = '\t' ∨ c = '\n' ∨ c = '\r' ∨ c = '\x0b' ∨ c = '\x0c')

/-- Python str.strip(): drop whitespace from both ends. -/
def stripChars (s : List Char) : List Char :=
  ((s.dropWhile isPySpace).reverse.dropWhile isPySpace).reverse

/-! ### page_parser.py -/

/-- PageRangeParser._validate_page_number: page numbers are 1-based and must
lie in [1, total_pages]. -/
def validate_page_number (page_num total_pages : ℕ) : Except (List Char) Unit :=
  if page_num < 1 then
    Except.error ("页面号必须大于0: ".data ++ natToChars page_num)
  else if total_pages < page_num then
    Except.error ("页面号超出范围: ".data ++ natToChars page_num ++ " > ".data
      ++ natToChars total_pages)
  else Except.ok ()

/-- The Python set of 0-based pages is modelled as a duplicate-free list in
insertion order; set.add is List.insert.  addRange adds every page of
range(start_page - 1, end_page), as the loop over a matched a-b range does. -/
def addRange (acc : List ℕ) (start_page end_page : ℕ) : List ℕ :=
  (List.range' (start_page - 1) (end_page - (start_page - 1))).foldl
    (fun a p => a.insert p) acc

/-- One iteration of the loop in PageRangeParser.parse_page_ranges: process a
single stripped comma-part, accumulating the page set.  The regex match of
^(\d+)-(\d+)$ is modelled by splitting on the dash: the part matches exactly
when the split yields two nonempty all-digit groups (digits never contain a
dash, so the decompositions coincide). -/
def parsePart (total_pages : ℕ) (acc : List ℕ) (part : List Char) :
    Except (List Char) (List ℕ) :=
  if part = [] then Except.ok acc
  else if '-' ∈ part then
    match splitChar '-' part with
    | [a, b] =>
      if a ≠ [] ∧ a.all isDigitChar ∧ b ≠ [] ∧ b.all isDigitChar then
        let start_page := charsToNat a
        let end_page := charsToNat b
        if end_page < start_page then
          Except.error ("起始页面不能大于结束页面: ".data ++ natToChars start_page
            ++ '-' :: natToChars end_page)
        else
          match validate_page_number start_page total_pages with
          | Except.error e => Except.error e
          | Except.ok _ =>
            match validate_page_number end_page total_pages with
            | Except.error e => Except.error e
            | Except.ok _ =>
              Except.ok (addRange acc start_page end_page)
      else Except.error ("无效的页面范围格式: ".data ++ part)
    | _ => Except.error ("无效的页面范围格式: ".data ++ part)
  else
    if part.all isDigitChar then
      let page_num := charsToNat part
      match validate_page_number page_num total_pages with
      | Except.error e => Except.error e
      | Except.ok _ => Except.ok (acc.insert (page_num - 1))
    else Except.error ("无效的页面号格式: ".data ++ part)

/-- PageRangeParser.parse_page_ranges: empty/blank spec means all pages,
otherwise split on commas, strip each part, accumulate a set of 0-based
indices, and return it sorted (Python sorted(list(page_set)), modelled as an
ascending stable sort of the duplicate-free accumulator). -/
def parse_page_ranges (page_spec : List Char) (total_pages : ℕ) :
    Except (List Char) (List ℕ) :=
  if page_spec = [] ∨ stripChars page_spec = [] then
    Except.ok (List.range total_pages)
  else
    let parts := (splitChar ',' page_spec).map stripChars
    match parts.foldlM (parsePart total_pages) [] with
    | Except.error e => Except.error e
    | Except.ok s => Except.ok (List.insertionSort (· ≤ ·) s)

/-- The run-grouping loop of PageRangeParser.format_page_ranges: walk the
sorted 1-based pages, extending the current [start, e] run while the next
page is e+1, emitting (start, e) otherwise. -/
def rangesLoop (start e : ℕ) : List ℕ → List (ℕ × ℕ)
  | [] => [(start, e)]
  | p :: ps =>
    if p = e + 1 then rangesLoop start p ps
    else (start, e) :: rangesLoop p p ps

/-- Rendering of one run: "s" for a singleton, "s-e" otherwise. -/
def renderRange (r : ℕ × ℕ) : List Char :=
  if r.1 = r.2 then natToChars r.1 else natToChars r.1 ++ '-' :: natToChars r.2

/-- Python ",".join(tokens). -/
def joinComma : List (List Char) → List Char
  | [] => []
  | [t] => t
  | t :: ts => t ++ ',' :: joinComma ts

/-- PageRangeParser.format_page_ranges: 0-based indices are shifted to
1-based, sorted, grouped into maximal consecutive runs and joined with
commas; the empty list formats to the empty string. -/
def format_page_ranges (pages : List ℕ) : List Char :=
  match List.insertionSort (· ≤ ·) (pages.map (· + 1)) with
  | [] => []
  | p :: rest => joinComma ((rangesLoop p p rest).map renderRange)

/-- Python sorted(set(l)): the ascending enumeration of the distinct
elements of l. -/
def sortedSet (l : List ℕ) : List ℕ := List.insertionSort (· ≤ ·) l.dedup

/-- page_parser.parse_pages convenience wrapper. -/
def parse_pages (page_spec : List Char) (total_pages : ℕ) :
    Except (List Char) (List ℕ) :=
  parse_page_ranges page_spec total_pages

/-- page_parser.format_pages convenience wrapper. -/
def format_pages (pages : List ℕ) : List Char :=
  format_page_ranges pages

/-! ### ocr_client.py: data model -/

/-- ocr_client.OCRItem: one recognized text item with a normalized
bottom-left-origin bounding box and a confidence. -/
structure OCRItem where
  text : String
  x : ℚ
  y : ℚ
  w : ℚ
  h : ℚ
  confidence : ℚ
  deriving DecidableEq

/-- ocr_client.OCRResult: the per-page result decoded from one "result"
message of the engine. -/
structure OCRResult where
  page_index : ℤ
  width : ℤ
  height : ℤ
  items : List OCRItem
  deriving DecidableEq

/-- The typed errors the background reader can enqueue
(each one is a RuntimeError/Exception in the source). -/
inductive EngineError where
  /-- RuntimeError built when the reader observes the subprocess exited. -/
  | readerProcessExited (exit_code : ℤ)
  /-- RuntimeError carrying the "message" field of a type:"error" reply. -/
  | engineReported (message : String)
  /-- RuntimeError built from a json.JSONDecodeError on a malformed line. -/
  | jsonParseError (errText : String)
  /-- Any other exception raised while decoding a parsed message. -/
  | decodeFailed (errText : String)
  deriving DecidableEq

/-- An entry of the thread-safe result queue: OCRResult or Exception. -/
inductive QEntry where
  | res (r : OCRResult)
  | err (e : EngineError)
  deriving DecidableEq

/-- The errors collect_results can raise. -/
inductive CollectError where
  /-- The liveness check found the subprocess dead
  (message "Swift OCR 进程已退出，退出码: {exit_code}"). -/
  | processExited (exit_code : ℤ)
  /-- queue.get timed out
  (message "等待OCR结果超时（...秒）。已收集 {collected}/{expected} 个结果"). -/
  | timeoutExceeded (collected expected : ℕ)
  /-- An Exception entry pulled from the queue is re-raised verbatim. -/
  | fromQueue (e : EngineError)
  deriving DecidableEq

/-- The message string of the error collect_results raises at its liveness
check, mirroring the f-string
f"Swift OCR 进程已退出，退出码: {exit_code}" — it interpolates only the
exit code. -/
def processExitedMessage (exit_code : ℤ) : List Char :=
  "Swift OCR 进程已退出，退出码: ".data ++ intToChars exit_code

/-- The message string of the timeout error of collect_results, mirroring
f"等待OCR结果超时（{timeout}秒）。已收集 {collected}/{expected} 个结果"
(the float rendering of the timeout seconds is abstracted as given text). -/
def timeoutExceededMessage (timeoutText : List Char) (collected expected : ℕ) :
    List Char :=
  "等待OCR结果超时（".data ++ timeoutText ++ "秒）。已收集 ".data
    ++ natToChars collected ++ '/' :: natToChars expected ++ " 个结果".data

/-! ### ocr_client.py: collect_results -/

/-- What one iteration of the collect_results loop observes: the current
value of self.proc together with its poll() result (none means self.proc is
None, some none a live process, some (some c) a process exited with code c),
and the outcome of queue.get within the timeout (none means queue.Empty). -/
structure CollectObs where
  poll : Option (Option ℤ)
  got : Option QEntry
  deriving DecidableEq

/-- Outcome of running the collect_results generator to exhaustion:
it finishes normally after the expected number of yields, raises after some
yields, or is still blocked waiting (the observation stream ran out). -/
inductive CollectOutcome where
  | done (yielded : List OCRResult)
  | raised (yielded : List OCRResult) (e : CollectError)
  | waiting (yielded : List OCRResult)
  deriving DecidableEq

/-- The while-loop of SwiftOCRClient.collect_results: while fewer than
expected_pages results have been yielded, check subprocess liveness (raise
ProcessExited if self.proc is set and poll() is not None), pull the next
queue entry (raise Timeout on queue.Empty), re-raise Exception entries, and
yield OCRResult entries. -/
def collectLoop (expected : ℕ) : List OCRResult → List CollectObs → CollectOutcome
  | acc, [] =>
    if acc.length < expected then CollectOutcome.waiting acc
    else CollectOutcome.done acc
  | acc, o :: rest =>
    if acc.length < expected then
      match o.poll with
      | some (some code) => CollectOutcome.raised acc (CollectError.processExited code)
      | _ =>
        match o.got with
        | none =>
          CollectOutcome.raised acc (CollectError.timeoutExceeded acc.length expected)
        | some (QEntry.err e) => CollectOutcome.raised acc (CollectError.fromQueue e)
        | some (QEntry.res r) => collectLoop expected (acc ++ [r]) rest
    else CollectOutcome.done acc

/-- SwiftOCRClient.collect_results, starting from zero collected results. -/
def collect_results (expected : ℕ) (obs : List CollectObs) : CollectOutcome :=
  collectLoop expected [] obs

/-- The results yielded so far in an outcome. -/
def yieldedOf : CollectOutcome → List OCRResult
  | CollectOutcome.done ys => ys
  | CollectOutcome.raised ys _ => ys
  | CollectOutcome.waiting ys => ys

/-- The OCRResult an observation delivers, when its queue entry is one. -/
def obsRes (o : CollectObs) : Option OCRResult :=
  match o.got with
  | some (QEntry.res r) => some r
  | _ => none

/-- The count discipline of a collect_results outcome: a normal finish has
yielded exactly the expected number of results, a raise or a still-blocked
loop strictly fewer. -/
def outcomeCountOk (expected : ℕ) : CollectOutcome → Prop
  | CollectOutcome.done ys => ys.length = expected
  | CollectOutcome.raised ys _ => ys.length < expected
  | CollectOutcome.waiting ys => ys.length < expected

/-- Observation of a live process delivering one result from the queue. -/
def liveResObs (r : OCRResult) : CollectObs :=
  { poll := some none, got := some (QEntry.res r) }

/-- Observations of a live process delivering the given queue entries. -/
def liveQueueObs (q : List QEntry) : List CollectObs :=
  q.map (fun e => { poll := some none, got := some e })

/-! ### ocr_client.py: client state, stop, send_image -/

/-- The state of a SwiftOCRClient that matters to stop/send_image/collect:
self.proc (none when no subprocess is attached, some poll otherwise, where
poll is the poll() value) and the contents of self._queue. -/
structure ClientState where
  proc : Option (Option ℤ)
  queue : List QEntry
  deriving DecidableEq

/-- A freshly constructed client: no subprocess, empty queue. -/
def initialClient : ClientState := { proc := none, queue := [] }

/-- SwiftOCRClient.stop: returns immediately when self.proc is None;
otherwise best-effort shutdown (send stop line, join reader, terminate
process, close streams — every step wrapped in try/except, so stop is total)
and finally self.proc = None.  The result queue is not touched. -/
def stop (s : ClientState) : ClientState :=
  match s.proc with
  | none => s
  | some _ => { s with proc := none }

/-- The errors SwiftOCRClient.send_image can raise. -/
inductive SendError where
  /-- "Swift OCR 进程未启动，请先调用 start()" -/
  | notStarted
  /-- "Swift OCR 进程 stdin 不可用" -/
  | stdinUnavailable
  /-- "Swift OCR 进程已退出，退出码: {code}" -/
  | exited (code : ℤ)
  /-- "无法发送OCR任务到Swift进程: {e}" (BrokenPipeError/OSError on write) -/
  | writeFailed (errText : String)
  deriving DecidableEq

/-- SwiftOCRClient.send_image: fail if self.proc is None, if stdin is
unavailable, or if poll() shows the process exited; then write+flush the job
line (writeErr models a BrokenPipeError/OSError raised by the write). -/
def send_image (s : ClientState) (stdinOpen : Bool) (writeErr : Option String) :
    Except SendError Unit :=
  match s.proc with
  | none => Except.error SendError.notStarted
  | some poll =>
    if ¬ stdinOpen then Except.error SendError.stdinUnavailable
    else
      match poll with
      | some code => Except.error (SendError.exited code)
      | none =>
        match writeErr with
        | some e => Except.error (SendError.writeFailed e)
        | none => Except.ok ()

/-- The observations collect_results makes on a quiescent client (no reader
thread running, no concurrent state change): poll stays at s.proc, the queue
delivers its entries in order, then every further get times out.  Enough
timeout observations are supplied that the loop never runs out. -/
def quiescentObs (s : ClientState) (expected : ℕ) : List CollectObs :=
  s.queue.map (fun e => { poll := s.proc, got := some e })
    ++ List.replicate (expected + 1) { poll := s.proc, got := none }

/-- collect_results called on a quiescent client. -/
def collect_results_quiescent (expected : ℕ) (s : ClientState) : CollectOutcome :=
  collectLoop expected [] (quiescentObs s expected)

/-! ### ocr_client.py: the background reader -/

/-- Classification of one line read from the subprocess stdout, by how
json.loads and the subsequent decoding treat it. -/
inductive EngineLine where
  /-- Valid JSON with type "result" that decodes to an OCRResult. -/
  | resultMsg (r : OCRResult)
  /-- Valid JSON with type "error" carrying a message. -/
  | errorMsg (message : String)
  /-- Valid JSON whose type is neither "result" nor "error": ignored. -/
  | otherMsg
  /-- json.loads raises JSONDecodeError: a parse-error entry is enqueued
  and the reader keeps reading. -/
  | malformed (errText : String)
  /-- Valid JSON of type "result" whose field decoding raises: the exception
  is enqueued and the reader keeps reading. -/
  | badFields (errText : String)
  deriving DecidableEq

/-- The queue entries one line contributes in SwiftOCRClient._reader. -/
def lineEntries : EngineLine → List QEntry
  | EngineLine.resultMsg r => [QEntry.res r]
  | EngineLine.errorMsg m => [QEntry.err (EngineError.engineReported m)]
  | EngineLine.otherMsg => []
  | EngineLine.malformed e => [QEntry.err (EngineError.jsonParseError e)]
  | EngineLine.badFields e => [QEntry.err (EngineError.decodeFailed e)]

/-- The loop of SwiftOCRClient._reader over the lines of subprocess stdout.
Each element pairs the poll() value observed while handling that line (none
while the process lives) with the line's classification; when the process is
seen dead the reader enqueues a fatal error and stops, otherwise it enqueues
the line's entries and continues. -/
def readerLoop : List (Option ℤ × EngineLine) → List QEntry
  | [] => []
  | (pollv, line) :: rest =>
    match pollv with
    | some code => [QEntry.err (EngineError.readerProcessExited code)]
    | none => lineEntries line ++ readerLoop rest

/-! ### api.py: AppleOCR.extract_text aggregation -/

/-- One item dict of the structured output of AppleOCR.extract_text. -/
structure PageItemData where
  text : String
  x : ℚ
  y : ℚ
  w : ℚ
  h : ℚ
  confidence : ℚ
  deriving DecidableEq

/-- One per-page record of the structured output of AppleOCR.extract_text. -/
structure PageData where
  page_index : ℤ
  width : ℤ
  height : ℤ
  items : List PageItemData
  deriving DecidableEq

/-- The page_data dict built from one collected OCRResult. -/
def page_data_of_result (r : OCRResult) : PageData :=
  { page_index := r.page_index
    width := r.width
    height := r.height
    items := r.items.map (fun i =>
      { text := i.text, x := i.x, y := i.y, w := i.w, h := i.h,
        confidence := i.confidence }) }

/-- The aggregation step of AppleOCR.extract_text: build a record per
collected result in collection order, then results.sort(key=page_index)
(Python list.sort is a stable ascending sort by the key, modelled by a
stable ascending insertion sort). -/
def extract_text_aggregate (collected : List OCRResult) : List PageData :=
  List.insertionSort (fun a b => a.page_index ≤ b.page_index)
    (collected.map page_data_of_result)

/-! ### overlay_builder.py: coordinate transform -/

/-- The scale factor OverlayComposer._norm_to_points applies to pixel
coordinates: 1.0 when dpi is None or 0, otherwise 72/dpi. -/
def pixel_scale (dpi : Option ℤ) : ℚ :=
  match dpi with
  | none => 1
  | some d => if d = 0 then 1 else 72 / d

/-- OverlayComposer._norm_to_points: scale the normalized box to pixels,
then to PDF points. -/
def norm_to_points (x y w h : ℚ) (width_px height_px : ℤ) (dpi : Option ℤ) :
    ℚ × ℚ × ℚ × ℚ :=
  let x_px := x * width_px
  let y_px := y * height_px
  let w_px := w * width_px
  let h_px := h * height_px
  let scale : ℚ :=
    match dpi with
    | none => 1
    | some d => if d = 0 then 1 else 72 / d
  (x_px * scale, y_px * scale, w_px * scale, h_px * scale)

/-- The transform of the specification sentence "scale = 72/dpi when dpi>0,
else 1.0", stated verbatim for comparison with norm_to_points. -/
def norm_to_points_spec (x y w h : ℚ) (width_px height_px : ℤ) (dpi : Option ℤ) :
    ℚ × ℚ × ℚ × ℚ :=
  let scale : ℚ :=
    match dpi with
    | none => 1
    | some d => if 0 < d then 72 / d else 1
  (x * width_px * scale, y * height_px * scale, w * width_px * scale,
    h * height_px * scale)

/-! ### overlay_builder.py: write_final -/

/-- A pypdf Transformation().rotate(rotate_deg).translate(tx, ty): rotate by
rotate_deg degrees, then translate by (tx, ty). -/
structure OverlayTransform where
  rotate_deg : ℤ
  tx : ℚ
  ty : ℚ
  deriving DecidableEq

/-- How the overlay is merged onto a page: page.merge_page(overlay) as-is, or
page.merge_transformed_page(overlay, t) with a correcting transform. -/
inductive MergeOp where
  | plain
  | transformed (t : OverlayTransform)
  deriving DecidableEq

/-- What write_final adds to the writer for one page. -/
inductive PageOutput where
  /-- The original page, untouched (no overlay existed for it). -/
  | unchanged
  /-- The original page with its overlay merged by the given operation. -/
  | merged (op : MergeOp)
  deriving DecidableEq

/-- The rotation correction of OverlayComposer.write_final: for /Rotate in
{90, 180, 270} the overlay is pre-transformed with the inverse rotation and
a translation by the page's mediabox width/height; any other rotation value
merges the overlay without correction. -/
def rotationCorrection (rotate : ℤ) (w h : ℚ) : MergeOp :=
  if rotate = 90 ∨ rotate = 180 ∨ rotate = 270 then
    if rotate = 90 then MergeOp.transformed { rotate_deg := -90, tx := 0, ty := h }
    else if rotate = 180 then MergeOp.transformed { rotate_deg := -180, tx := w, ty := h }
    else MergeOp.transformed { rotate_deg := -270, tx := w, ty := 0 }
  else MergeOp.plain

/-- One page as write_final sees it: its rotation, mediabox size in points,
and whether an overlay was registered for its index. -/
structure FinalPage where
  rotation : ℤ
  width : ℚ
  height : ℚ
  hasOverlay : Bool
  deriving DecidableEq

/-- The per-page body of the write_final loop. -/
def write_final_page (p : FinalPage) : PageOutput :=
  if p.hasOverlay then
    PageOutput.merged (rotationCorrection p.rotation p.width p.height)
  else PageOutput.unchanged

/-- OverlayComposer.write_final processes pages 0..total_pages-1 in order. -/
def write_final (pages : List FinalPage) : List PageOutput :=
  pages.map write_final_page

/-! ### pdf_to_images.py -/

/-- The image file a page unit of work produces (path and pixel size). -/
structure SourceImage where
  image_path : String
  width : ℤ
  height : ℤ
  deriving DecidableEq

/-- pdf_to_images.PageImage. -/
structure PageImage where
  page_index : ℤ
  image_path : String
  width : ℤ
  height : ℤ
  dpi : ℤ
  total_pages : ℤ
  deriving DecidableEq

/-- The pages_to_render computation of render_pdf_stream: all pages when no
explicit selection is given, otherwise the in-range members of the
selection. -/
def pages_to_render (total_pages : ℕ) (selected : Option (List ℤ)) : List ℤ :=
  match selected with
  | none => List.map (fun n : ℕ => (n : ℤ)) (List.range total_pages)
  | some sel => sel.filter (fun p => decide (0 ≤ p ∧ p < (total_pages : ℤ)))

/-- The PageImage built from an embedded image extracted from page i:
extracted images always carry dpi = 0. -/
def pageImageOf (total_pages : ℕ) (i : ℤ) (d : SourceImage) : PageImage :=
  { page_index := i, image_path := d.image_path, width := d.width,
    height := d.height, dpi := 0, total_pages := total_pages }

/-- The SourceImage data carried by a PageImage. -/
def sourceImageOf (img : PageImage) : SourceImage :=
  { image_path := img.image_path, width := img.width, height := img.height }

/-- _extract_embedded_images for page i, lifted to a PageImage with the
total-pages field filled in as render_pdf_stream does.  The extract oracle
abstracts the document: none when the page has no embedded raster image or
extraction failed (the function catches every exception and returns None),
some otherwise. -/
def extract_embedded_pageimage (extract : ℤ → Option SourceImage)
    (total_pages : ℕ) (i : ℤ) : Option PageImage :=
  (extract i).map (pageImageOf total_pages i)

/-- _render_one_page for page i at the given dpi, lifted to a PageImage. -/
def render_one_pageimage (rnd : ℤ → SourceImage) (dpi : ℤ) (total_pages : ℕ)
    (i : ℤ) : PageImage :=
  let d := rnd i
  { page_index := i, image_path := d.image_path, width := d.width,
    height := d.height, dpi := dpi, total_pages := total_pages }

/-- render_pdf_stream: fail when the document has no pages; with an explicit
selection that leaves nothing in range, yield nothing; in passthrough mode
(dpi None or 0) yield the successfully extracted embedded images, in
rasterization mode yield every rendered page.  The worker pool yields
completed units in completion order: order is that completion order, a
permutation of pages_to_render supplied by the scheduler. -/
def render_pdf_stream (total_pages : ℕ) (dpi : Option ℤ)
    (selected : Option (List ℤ)) (extract : ℤ → Option SourceImage)
    (rnd : ℤ → SourceImage) (order : List ℤ) :
    Except String (List PageImage) :=
  if total_pages = 0 then Except.error "无法获取PDF页数"
  else if selected.isSome ∧ pages_to_render total_pages selected = [] then
    Except.ok []
  else if dpi = none ∨ dpi = some 0 then
    Except.ok (order.filterMap (extract_embedded_pageimage extract total_pages))
  else
    Except.ok (order.map (render_one_pageimage rnd (dpi.getD 0) total_pages))

/-! ### Concrete sample values used by witnesses and counterexamples -/

/-- A sample recognized item. -/
def itemDemo : OCRItem :=
  { text := "Hello", x := 1/10, y := 1/5, w := 3/10, h := 1/10, confidence := 9/10 }

/-- A sample per-page result (page 0). -/
def resDemo0 : OCRResult := { page_index := 0, width := 100, height := 100, items := [itemDemo] }

/-- A second sample per-page result (page 1). -/
def resDemo1 : OCRResult := { page_index := 1, width := 200, height := 200, items := [] }

/-- A sample embedded image of page 1 (5x6 px). -/
def srcDemo1 : SourceImage := { image_path := "p1.png", width := 5, height := 6 }

/-- A sample embedded image of page 2 (8x9 px). -/
def srcDemo2 : SourceImage := { image_path := "p2.png", width := 8, height := 9 }

/-- A sample rasterizer output. -/
def srcDemoR : SourceImage := { image_path := "r.png", width := 1, height := 1 }

/-- A second, different rasterizer output. -/
def srcDemoR2 : SourceImage := { image_path := "other.png", width := 7, height := 7 }

/-- A sample extracted image for the duplicate-selection run. -/
def srcDemoP : SourceImage := { image_path := "p.png", width := 3, height := 4 }

/-- An extraction oracle where only page 2 has an embedded image. -/
def extractDemo2 : ℤ → Option SourceImage := fun i => if i = 2 then some srcDemo2 else none

/-- An extraction oracle where only page 1 has an embedded image. -/
def extractDemo1 : ℤ → Option SourceImage := fun i => if i = 1 then some srcDemo1 else none

/-- The PageImage the passthrough run yields for page 2 of a 3-page document. -/
def pageImgDemo2 : PageImage :=
  { page_index := 2, image_path := "p2.png", width := 8, height := 9, dpi := 0, total_pages := 3 }

/-- The PageImage a rasterization run at dpi 72 yields for page 0 of a 1-page document. -/
def dupPageImg : PageImage :=
  { page_index := 0, image_path := "p.png", width := 3, height := 4, dpi := 72, total_pages := 1 }

/-! ## Theorems -/

/-! ### C3: the coordinate transform of _norm_to_points -/

/-- norm_to_points in closed form: every component is the normalized
coordinate scaled by the pixel dimension and then by pixel_scale. -/
theorem norm_to_points_eq (x y w h : ℚ) (wp hp : ℤ) (dpi : Option ℤ) :
    norm_to_points x y w h wp hp dpi =
      (x * wp * pixel_scale dpi, y * hp * pixel_scale dpi,
        w * wp * pixel_scale dpi, h * hp * pixel_scale dpi) := by
  cases dpi <;> rfl

/-- C3 (amended): the coordinate transform returns
(x*width_px*s, y*height_px*s, w*width_px*s, h*height_px*s) where s = 72/dpi
for every dpi that is neither None nor 0, and s = 1.0 when dpi is None or 0
(the code divides by any nonzero dpi, including negative ones); in
particular width_px = height_px = 1000, dpi = 300 maps the box
(0.5, 0.5, 0.2, 0.1) to the point box (120.0, 120.0, 48.0, 24.0). -/
theorem norm_to_points_transform (x y w h : ℚ) (wp hp : ℤ) (dpi : Option ℤ) :
    norm_to_points x y w h wp hp dpi =
      (x * wp * pixel_scale dpi, y * hp * pixel_scale dpi,
        w * wp * pixel_scale dpi, h * hp * pixel_scale dpi)
    ∧ (dpi = none ∨ dpi = some 0 → pixel_scale dpi = 1)
    ∧ (∀ d : ℤ, dpi = some d → d ≠ 0 → pixel_scale dpi = 72 / (d : ℚ))
    ∧ norm_to_points (1/2) (1/2) (1/5) (1/10) 1000 1000 (some 300)
        = (120, 120, 48, 24) := by
  refine ⟨norm_to_points_eq x y w h wp hp dpi, ?_, ?_, ?_⟩
  · rintro (rfl | rfl) <;> simp [pixel_scale]
  · rintro d rfl hd
    simp [pixel_scale, hd]
  · rw [norm_to_points_eq]
    norm_num [pixel_scale, Prod.ext_iff]

/-- Witness for C3 at a concrete input: dpi = 300 gives scale 72/300 and the
concrete box of the claim maps to (120, 120, 48, 24). -/
theorem norm_to_points_transform_witness :
    pixel_scale (some 300) = 72 / (300 : ℚ)
    ∧ norm_to_points (1/2) (1/2) (1/5) (1/10) 1000 1000 (some 300)
        = (120, 120, 48, 24) :=
  ⟨(norm_to_points_transform 0 0 0 0 0 0 (some 300)).2.2.1 300 rfl (by decide),
    (norm_to_points_transform 0 0 0 0 0 0 (some 300)).2.2.2⟩

/-- C3 counterexample: at dpi = -72 the code scales by 72/(-72) = -1 while
the claim's "s = 1.0 otherwise" (for any dpi not > 0) demands scale 1, so
the two transforms disagree. -/
theorem norm_to_points_negative_dpi_counterexample :
    norm_to_points 1 0 0 0 1 1 (some (-72)) = (-1, 0, 0, 0)
    ∧ norm_to_points_spec 1 0 0 0 1 1 (some (-72)) = (1, 0, 0, 0)
    ∧ norm_to_points 1 0 0 0 1 1 (some (-72))
        ≠ norm_to_points_spec 1 0 0 0 1 1 (some (-72)) := by
  have h1 : norm_to_points 1 0 0 0 1 1 (some (-72)) = (-1, 0, 0, 0) := by
    rw [norm_to_points_eq]
    norm_num [pixel_scale, Prod.ext_iff]
  have h2 : norm_to_points_spec 1 0 0 0 1 1 (some (-72)) = (1, 0, 0, 0) := by
    norm_num [norm_to_points_spec, Prod.ext_iff]
  refine ⟨h1, h2, ?_⟩
  rw [h1, h2]
  norm_num [Prod.ext_iff]

/-! ### Unfolding lemmas for the collect_results loop -/

/-- One loop step when the liveness check fires: self.proc is set and poll()
returned an exit code, so the loop raises ProcessExited. -/
theorem collectLoop_cons_exited {expected : ℕ} {acc : List OCRResult}
    {o : CollectObs} {rest : List CollectObs} {code : ℤ}
    (h : acc.length < expected) (hp : o.poll = some (some code)) :
    collectLoop expected acc (o :: rest)
      = CollectOutcome.raised acc (CollectError.processExited code) := by
  rw [collectLoop, if_pos h, hp]

/-- One loop step when the liveness check passes (self.proc is None or the
process is alive): the loop pulls from the queue and dispatches on the
entry. -/
theorem collectLoop_cons_live_step {expected : ℕ} {acc : List OCRResult}
    {o : CollectObs} {rest : List CollectObs}
    (h : acc.length < expected) (hp : o.poll = none ∨ o.poll = some none) :
    collectLoop expected acc (o :: rest)
      = match o.got with
        | none =>
          CollectOutcome.raised acc (CollectError.timeoutExceeded acc.length expected)
        | some (QEntry.err e) => CollectOutcome.raised acc (CollectError.fromQueue e)
        | some (QEntry.res r) => collectLoop expected (acc ++ [r]) rest := by
  rcases hp with hp | hp <;> rw [collectLoop, if_pos h, hp]

/-- One loop step when enough results have been yielded: the generator is
exhausted and finishes normally. -/
theorem collectLoop_finished {expected : ℕ} {acc : List OCRResult}
    (obs : List CollectObs) (h : ¬ acc.length < expected) :
    collectLoop expected acc obs = CollectOutcome.done acc := by
  cases obs <;> rw [collectLoop, if_neg h]

/-! ### C1: collect_results yields exactly the expected count -/

/-- Invariant of the collect loop: starting from at most expected yields, a
normal finish has exactly expected yields and any raise (or a still-blocked
loop) strictly fewer. -/
theorem collectLoop_countOk (expected : ℕ) (obs : List CollectObs) :
    ∀ acc : List OCRResult, acc.length ≤ expected →
      outcomeCountOk expected (collectLoop expected acc obs) := by
  induction obs with
  | nil =>
    intro acc hle
    rw [collectLoop]
    by_cases h : acc.length < expected
    · simpa only [if_pos h, outcomeCountOk] using h
    · simp only [if_neg h, outcomeCountOk]
      omega
  | cons o rest ih =>
    intro acc hle
    by_cases h : acc.length < expected
    · rcases hp : o.poll with _ | pv
      · rw [collectLoop_cons_live_step h (Or.inl hp)]
        rcases hg : o.got with _ | entry
        · simpa only [outcomeCountOk] using h
        · rcases entry with r | e
          · exact ih (acc ++ [r]) (by simp; omega)
          · simpa only [outcomeCountOk] using h
      · rcases pv with _ | code
        · rw [collectLoop_cons_live_step h (Or.inr hp)]
          rcases hg : o.got with _ | entry
          · simpa only [outcomeCountOk] using h
          · rcases entry with r | e
            · exact ih (acc ++ [r]) (by simp; omega)
            · simpa only [outcomeCountOk] using h
        · rw [collectLoop_cons_exited h hp]
          simpa only [outcomeCountOk] using h
    · rw [collectLoop_finished _ h]
      simp only [outcomeCountOk]
      omega

/-- Provenance of the yields of the collect loop: everything yielded beyond
the starting accumulator is an initial segment of the OCRResult queue
entries delivered by the observations, in order. -/
theorem collectLoop_yield_src (expected : ℕ) (obs : List CollectObs) :
    ∀ acc : List OCRResult, ∃ k,
      yieldedOf (collectLoop expected acc obs)
        = acc ++ (obs.filterMap obsRes).take k := by
  induction obs with
  | nil =>
    intro acc
    refine ⟨0, ?_⟩
    rw [collectLoop]
    by_cases h : acc.length < expected <;> simp [h, yieldedOf]
  | cons o rest ih =>
    intro acc
    by_cases h : acc.length < expected
    · rcases hp : o.poll with _ | pv
      · rw [collectLoop_cons_live_step h (Or.inl hp)]
        rcases hg : o.got with _ | entry
        · exact ⟨0, by simp [hg, yieldedOf]⟩
        · rcases entry with r | e
          · obtain ⟨k, hk⟩ := ih (acc ++ [r])
            refine ⟨k + 1, ?_⟩
            have hor : obsRes o = some r := by simp [obsRes, hg]
            simp only [hg, hk, List.filterMap_cons, hor, List.take_succ_cons,
              List.append_assoc, List.singleton_append]
          · exact ⟨0, by simp [hg, yieldedOf]⟩
      · rcases pv with _ | code
        · rw [collectLoop_cons_live_step h (Or.inr hp)]
          rcases hg : o.got with _ | entry
          · exact ⟨0, by simp [hg, yieldedOf]⟩
          · rcases entry with r | e
            · obtain ⟨k, hk⟩ := ih (acc ++ [r])
              refine ⟨k + 1, ?_⟩
              have hor : obsRes o = some r := by simp [obsRes, hg]
              simp only [hg, hk, List.filterMap_cons, hor, List.take_succ_cons,
                List.append_assoc, List.singleton_append]
            · exact ⟨0, by simp [hg, yieldedOf]⟩
        · rw [collectLoop_cons_exited h hp]
          exact ⟨0, by simp [yieldedOf]⟩
    · rw [collectLoop_finished _ h]
      exact ⟨0, by simp [yieldedOf]⟩

/-- C1: for every expected_pages = N and every run, collect_results either
finishes having yielded exactly N results, or raises (or is still blocked)
strictly before N results have been yielded — never more than N — and every
yield comes from an OCRResult queue entry (error entries never count). -/
theorem collect_results_yield_count (expected : ℕ) (obs : List CollectObs) :
    (∀ ys, collect_results expected obs = CollectOutcome.done ys →
      ys.length = expected)
    ∧ (∀ ys e, collect_results expected obs = CollectOutcome.raised ys e →
      ys.length < expected)
    ∧ (∀ ys, collect_results expected obs = CollectOutcome.waiting ys →
      ys.length < expected)
    ∧ ∃ k, yieldedOf (collect_results expected obs)
        = (obs.filterMap obsRes).take k := by
  have hok := collectLoop_countOk expected obs [] (by simp)
  have hsrc := collectLoop_yield_src expected obs []
  rw [show collectLoop expected [] obs = collect_results expected obs from rfl] at hok hsrc
  refine ⟨?_, ?_, ?_, ?_⟩
  · intro ys hys
    rw [hys] at hok
    simpa only [outcomeCountOk] using hok
  · intro ys e hys
    rw [hys] at hok
    simpa only [outcomeCountOk] using hok
  · intro ys hys
    rw [hys] at hok
    simpa only [outcomeCountOk] using hok
  · obtain ⟨k, hk⟩ := hsrc
    exact ⟨k, by simpa using hk⟩

/-- Witness for C1 at a concrete run: two results queued, expected = 2, the
collection finishes with exactly those 2 yields. -/
theorem collect_results_yield_count_witness :
    collect_results 2 [liveResObs resDemo0, liveResObs resDemo1]
      = CollectOutcome.done [resDemo0, resDemo1]
    ∧ ([resDemo0, resDemo1] : List OCRResult).length = 2 := by
  have h : collect_results 2 [liveResObs resDemo0, liveResObs resDemo1]
      = CollectOutcome.done [resDemo0, resDemo1] := rfl
  exact ⟨h, (collect_results_yield_count 2 _).1 _ h⟩

/-! ### C5: stop is idempotent; behavior of send/collect after stop -/

/-- stop always leaves self.proc = None. -/
theorem stop_proc_eq_none (s : ClientState) : (stop s).proc = none := by
  rcases h : s.proc with _ | p <;> simp only [stop, h]

/-- stop never touches the result queue. -/
theorem stop_queue_eq (s : ClientState) : (stop s).queue = s.queue := by
  rcases h : s.proc with _ | p <;> simp only [stop, h]

/-- Every observation of a quiescent client reports the client's proc. -/
theorem quiescentObs_poll (s : ClientState) (expected : ℕ) :
    ∀ o ∈ quiescentObs s expected, o.poll = s.proc := by
  intro o ho
  rcases List.mem_append.mp ho with h | h
  · obtain ⟨e, _, rfl⟩ := List.mem_map.mp h
    rfl
  · rw [List.eq_of_mem_replicate h]

/-- If no observation ever reports an attached subprocess (poll is always
none, as after stop), the collect loop can never raise ProcessExited. -/
theorem collectLoop_poll_none_no_exit (expected : ℕ) (obs : List CollectObs)
    (hobs : ∀ o ∈ obs, o.poll = none) :
    ∀ (acc ys : List OCRResult) (c : ℤ),
      collectLoop expected acc obs
        ≠ CollectOutcome.raised ys (CollectError.processExited c) := by
  induction obs with
  | nil =>
    intro acc ys c h
    rw [collectLoop] at h
    by_cases hlt : acc.length < expected
    · rw [if_pos hlt] at h
      exact CollectOutcome.noConfusion h
    · rw [if_neg hlt] at h
      exact CollectOutcome.noConfusion h
  | cons o rest ih =>
    intro acc ys c h
    have hp : o.poll = none := hobs o (List.mem_cons_self o rest)
    by_cases hlt : acc.length < expected
    · rw [collectLoop_cons_live_step hlt (Or.inl hp)] at h
      rcases hg : o.got with _ | entry
      · rw [hg] at h
        simp at h
      · rcases entry with r | e
        · rw [hg] at h
          exact ih (fun o' ho' => hobs o' (List.mem_cons_of_mem _ ho')) _ _ _ h
        · rw [hg] at h
          simp at h
    · rw [collectLoop_finished _ hlt] at h
      exact CollectOutcome.noConfusion h

/-- C5 (amended): stop is idempotent and safe from any state (it is a total
function, and calling it twice or before start leaves the state unchanged);
after stop, send_image fails with the ProcessUnavailable-style "not
started" error; collect_results after stop no longer observes any process:
it can never raise ProcessExited, it still yields results left over in the
queue, and with an empty queue it raises the Timeout error (reporting 0
collected) rather than a ProcessUnavailable-style error. -/
theorem stop_idempotent_and_post_stop_behavior (s : ClientState) (n : ℕ)
    (stdinOpen : Bool) (writeErr : Option String) (hn : 0 < n) :
    stop (stop s) = stop s
    ∧ stop initialClient = initialClient
    ∧ send_image (stop s) stdinOpen writeErr = Except.error SendError.notStarted
    ∧ (∀ ys c, collect_results_quiescent n (stop s)
        ≠ CollectOutcome.raised ys (CollectError.processExited c))
    ∧ (s.queue = [] → collect_results_quiescent n (stop s)
        = CollectOutcome.raised [] (CollectError.timeoutExceeded 0 n)) := by
  obtain ⟨p, q⟩ := s
  refine ⟨by cases p <;> rfl, rfl, by cases p <;> rfl, ?_, ?_⟩
  · intro ys c
    apply collectLoop_poll_none_no_exit
    intro o ho
    have h := quiescentObs_poll (stop ⟨p, q⟩) n o ho
    rwa [stop_proc_eq_none] at h
  · rintro rfl
    have hq : quiescentObs (stop ⟨p, ([] : List QEntry)⟩) n
        = { poll := none, got := none }
          :: List.replicate n { poll := none, got := none } := by
      cases p <;> simp [quiescentObs, stop, List.replicate_succ]
    simp only [collect_results_quiescent, hq]
    rw [collectLoop_cons_live_step (by simpa using hn) (Or.inl rfl)]
    rfl

/-- Witness for C5 at a concrete state: stopping a never-started client is a
no-op, send after stop fails with the not-started error, and collect after
stop on an empty queue times out reporting 0 collected. -/
theorem stop_idempotent_and_post_stop_behavior_witness :
    stop (stop initialClient) = stop initialClient
    ∧ send_image (stop initialClient) true none
        = Except.error SendError.notStarted
    ∧ collect_results_quiescent 1 (stop initialClient)
        = CollectOutcome.raised [] (CollectError.timeoutExceeded 0 1) := by
  have h := stop_idempotent_and_post_stop_behavior initialClient 1 true none
    (by decide)
  exact ⟨h.1, h.2.2.1, h.2.2.2.2 rfl⟩

/-- C5 counterexample: a client stopped while one result was still queued.
collect_results called after stop() pulls the leftover entry and finishes
normally — it succeeds instead of failing with a ProcessUnavailable-style
error. -/
theorem collect_after_stop_succeeds_counterexample :
    stop { proc := some none, queue := [QEntry.res resDemo0] }
      = { proc := none, queue := [QEntry.res resDemo0] }
    ∧ collect_results_quiescent 1
        (stop { proc := some none, queue := [QEntry.res resDemo0] })
      = CollectOutcome.done [resDemo0] :=
  ⟨rfl, rfl⟩

/-! ### C6: engine exit mid-batch -/

/-- Consuming a block of live-process result observations extends the
accumulator and continues the loop. -/
theorem collectLoop_consume_live (expected : ℕ) (rs : List OCRResult) :
    ∀ (acc : List OCRResult) (rest : List CollectObs),
      (acc ++ rs).length < expected →
      collectLoop expected acc (rs.map liveResObs ++ rest)
        = collectLoop expected (acc ++ rs) rest := by
  induction rs with
  | nil =>
    intro acc rest h
    simp
  | cons r rs' ih =>
    intro acc rest h
    have hlt : acc.length < expected := by
      simp only [List.length_append, List.length_cons] at h
      omega
    rw [List.map_cons, List.cons_append,
      collectLoop_cons_live_step hlt (Or.inr rfl)]
    show collectLoop expected (acc ++ [r]) (List.map liveResObs rs' ++ rest) = _
    rw [ih (acc ++ [r]) rest
      (by simp only [List.length_append, List.length_cons, List.length_nil,
        List.length_singleton] at h ⊢; omega)]
    rw [List.append_assoc, List.singleton_append]

/-- C6 (amended): if the subprocess is seen dead after some of the expected
results have been yielded, the very next iteration of collect_results raises
the ProcessExited error — whose message reports the subprocess exit code,
not the collected count (only the Timeout error reports that) — yielding
exactly the results collected so far, neither yielding further results nor
blocking. -/
theorem collect_raises_process_exited_mid_batch (expected : ℕ)
    (rs : List OCRResult) (code : ℤ) (g : Option QEntry)
    (rest : List CollectObs) (h : rs.length < expected) :
    collect_results expected
        (rs.map liveResObs ++ { poll := some (some code), got := g } :: rest)
      = CollectOutcome.raised rs (CollectError.processExited code) := by
  simp only [collect_results]
  rw [collectLoop_consume_live expected rs [] _ (by simpa using h)]
  exact collectLoop_cons_exited (by simpa using h) rfl

/-- Witness for C6 at a concrete run: 1 of 3 expected results arrives, then
the subprocess is seen exited with code 7; the collection raises
ProcessExited having yielded that 1 result. -/
theorem collect_raises_process_exited_mid_batch_witness :
    collect_results 3
        [liveResObs resDemo0, { poll := some (some 7), got := none }]
      = CollectOutcome.raised [resDemo0] (CollectError.processExited 7) :=
  collect_raises_process_exited_mid_batch 3 [resDemo0] 7 none [] (by simp)

/-- C6 counterexample: in that same run the raised error is
ProcessExited 7, and its message (an f-string interpolating only the exit
code) contains no character '1' although 1 result had been collected — the
collected-so-far count is reported by the Timeout message, not by
ProcessExited. -/
theorem process_exited_error_lacks_collected_count :
    collect_results 3
        [liveResObs resDemo0, { poll := some (some 7), got := none }]
      = CollectOutcome.raised [resDemo0] (CollectError.processExited 7)
    ∧ '1' ∉ processExitedMessage 7
    ∧ '1' ∈ timeoutExceededMessage "300.0".data 1 3 := by
  refine ⟨rfl, by decide, by decide⟩

/-! ### C7: the reader survives malformed JSON; collect re-raises it -/

/-- While the process is seen alive, the reader enqueues each line's entries
in order and keeps reading. -/
theorem readerLoop_append_live (pre : List (Option ℤ × EngineLine))
    (hpre : ∀ p ∈ pre, p.1 = none) (post : List (Option ℤ × EngineLine)) :
    readerLoop (pre ++ post)
      = pre.flatMap (fun p => lineEntries p.2) ++ readerLoop post := by
  induction pre with
  | nil => simp
  | cons p pre' ih =>
    obtain ⟨pv, line⟩ := p
    have hp : pv = none := hpre _ (List.mem_cons_self _ _)
    subst hp
    rw [List.cons_append, readerLoop]
    rw [ih (fun p' hp' => hpre _ (List.mem_cons_of_mem _ hp'))]
    simp

/-- liveQueueObs maps one observation per queue entry. -/
theorem liveQueueObs_cons (e : QEntry) (q : List QEntry) :
    liveQueueObs (e :: q)
      = { poll := some none, got := some e } :: liveQueueObs q := rfl

/-- liveQueueObs turns result entries into live result observations. -/
theorem liveQueueObs_res_append (rs : List OCRResult) (q : List QEntry) :
    liveQueueObs (rs.map QEntry.res ++ q)
      = rs.map liveResObs ++ liveQueueObs q := by
  simp only [liveQueueObs, List.map_append, List.map_map]
  rfl

/-- C7: a malformed JSON line makes the reader enqueue a parse-error entry
and continue reading the subsequent lines (it neither stops nor crashes);
and when collect_results later pulls that error entry from the queue, it
re-raises it, terminating the whole collection after the results that
preceded it. -/
theorem reader_malformed_json_resilience
    (pre post : List (Option ℤ × EngineLine)) (errText : String)
    (hpre : ∀ p ∈ pre, p.1 = none)
    (rs : List OCRResult) (n : ℕ) (rest : List QEntry) (hn : rs.length < n) :
    readerLoop (pre ++ (none, EngineLine.malformed errText) :: post)
      = pre.flatMap (fun p => lineEntries p.2)
        ++ QEntry.err (EngineError.jsonParseError errText) :: readerLoop post
    ∧ collect_results n
        (liveQueueObs (rs.map QEntry.res
          ++ QEntry.err (EngineError.jsonParseError errText) :: rest))
      = CollectOutcome.raised rs
          (CollectError.fromQueue (EngineError.jsonParseError errText)) := by
  constructor
  · rw [readerLoop_append_live pre hpre]
    rw [readerLoop]
    simp [lineEntries]
  · rw [liveQueueObs_res_append]
    simp only [collect_results]
    rw [collectLoop_consume_live n rs [] _ (by simpa using hn)]
    rw [liveQueueObs_cons, collectLoop_cons_live_step (by simpa using hn)
      (Or.inr rfl)]
    rfl

/-- Witness for C7 at a concrete run: result, malformed line, result; the
queue holds result/parse-error/result in order, and collect with 2 expected
yields the first result then raises the parse error. -/
theorem reader_malformed_json_resilience_witness :
    readerLoop [(none, EngineLine.resultMsg resDemo0),
        (none, EngineLine.malformed "bad"),
        (none, EngineLine.resultMsg resDemo1)]
      = [QEntry.res resDemo0, QEntry.err (EngineError.jsonParseError "bad"),
          QEntry.res resDemo1]
    ∧ collect_results 2 (liveQueueObs [QEntry.res resDemo0,
        QEntry.err (EngineError.jsonParseError "bad"), QEntry.res resDemo1])
      = CollectOutcome.raised [resDemo0]
          (CollectError.fromQueue (EngineError.jsonParseError "bad")) := by
  have h := reader_malformed_json_resilience
    [(none, EngineLine.resultMsg resDemo0)]
    [(none, EngineLine.resultMsg resDemo1)] "bad"
    (by intro p hp; simp at hp; rw [hp]) [resDemo0] 2 [QEntry.res resDemo1]
    (by simp)
  exact ⟨h.1, h.2⟩

/-! ### C2: extract_text output is sorted ascending by page_index -/

/-- The page_index of an aggregated record is the page_index of the
collected result it was built from. -/
theorem page_data_keys (l : List OCRResult) :
    (l.map page_data_of_result).map PageData.page_index
      = l.map OCRResult.page_index := by
  rw [List.map_map]
  rfl

/-- A list sorted by non-strict key order whose keys are duplicate-free is
sorted by strict key order. -/
theorem sorted_strict_of_sorted_nodup_keys (l : List PageData)
    (hs : List.Sorted (fun a b => a.page_index ≤ b.page_index) l)
    (hn : (l.map PageData.page_index).Nodup) :
    List.Sorted (fun a b => a.page_index < b.page_index) l := by
  have hne : l.Pairwise (fun a b => a.page_index ≠ b.page_index) :=
    List.pairwise_map.mp hn
  exact (List.Pairwise.and hs hne).imp (fun h => lt_of_le_of_ne h.1 h.2)

/-- C2: the list extract_text returns is sorted ascending by page_index for
every collection order; and since the engine produces at most one result per
submitted page (duplicate-free page_index values), the aggregated output is
the same for any interleaving of the engine's emission order. -/
theorem extract_text_sorted_by_page_index (collected : List OCRResult) :
    List.Sorted (fun a b => a.page_index ≤ b.page_index)
      (extract_text_aggregate collected)
    ∧ ((collected.map OCRResult.page_index).Nodup →
      ∀ collected2 : List OCRResult, collected2.Perm collected →
        extract_text_aggregate collected2 = extract_text_aggregate collected) := by
  haveI instTot : IsTotal PageData (fun a b => a.page_index ≤ b.page_index) :=
    ⟨fun a b => le_total a.page_index b.page_index⟩
  haveI instTrans : IsTrans PageData (fun a b => a.page_index ≤ b.page_index) :=
    ⟨fun a b c hab hbc => le_trans hab hbc⟩
  haveI instAnti : IsAntisymm PageData (fun a b => a.page_index < b.page_index) :=
    ⟨fun a b h1 h2 => absurd (lt_trans h1 h2) (lt_irrefl _)⟩
  refine ⟨List.sorted_insertionSort _ _, ?_⟩
  intro hnd collected2 hperm
  have hkeys : ∀ l : List OCRResult, (l.map OCRResult.page_index).Nodup →
      ((extract_text_aggregate l).map PageData.page_index).Nodup := by
    intro l hl
    have hp : (extract_text_aggregate l).map PageData.page_index
        |>.Perm (l.map OCRResult.page_index) := by
      rw [← page_data_keys]
      exact (List.perm_insertionSort _ _).map _
    exact hp.nodup_iff.mpr hl
  have hnd2 : (collected2.map OCRResult.page_index).Nodup :=
    ((hperm.map OCRResult.page_index).nodup_iff).mpr hnd
  have hpagg : (extract_text_aggregate collected2).Perm
      (extract_text_aggregate collected) :=
    ((List.perm_insertionSort _ _).trans
      ((hperm.map page_data_of_result).trans
        (List.perm_insertionSort _ _).symm))
  exact List.eq_of_perm_of_sorted hpagg
    (sorted_strict_of_sorted_nodup_keys _ (List.sorted_insertionSort _ _)
      (hkeys _ hnd2))
    (sorted_strict_of_sorted_nodup_keys _ (List.sorted_insertionSort _ _)
      (hkeys _ hnd))

/-- Witness for C2 at a concrete collection: results arriving as page 1 then
page 0 aggregate to the page-0-first list, sorted, and equal to the
aggregate of the opposite arrival order. -/
theorem extract_text_sorted_by_page_index_witness :
    extract_text_aggregate [resDemo1, resDemo0]
      = [page_data_of_result resDemo0, page_data_of_result resDemo1]
    ∧ List.Sorted (fun a b : PageData => a.page_index ≤ b.page_index)
        (extract_text_aggregate [resDemo1, resDemo0])
    ∧ extract_text_aggregate [resDemo1, resDemo0]
        = extract_text_aggregate [resDemo0, resDemo1] :=
  ⟨rfl, (extract_text_sorted_by_page_index [resDemo1, resDemo0]).1,
    (extract_text_sorted_by_page_index [resDemo0, resDemo1]).2 (by decide)
      [resDemo1, resDemo0] (List.Perm.swap resDemo0 resDemo1 [])⟩

/-! ### C8 and C9: render_pdf_stream -/

/-- Page indices of a passthrough run: exactly the submitted pages whose
extraction produced an image, in completion order. -/
theorem passthrough_yield_indices (extract : ℤ → Option SourceImage)
    (total : ℕ) (order : List ℤ) :
    (order.filterMap (extract_embedded_pageimage extract total)).map
        PageImage.page_index
      = order.filter (fun i => (extract i).isSome) := by
  induction order with
  | nil => rfl
  | cons i os ih =>
    rcases hx : extract i with _ | d <;>
      simp [List.filterMap_cons, List.filter_cons, extract_embedded_pageimage,
        pageImageOf, hx, ih]

/-- Page indices of a rasterization run: exactly the submitted pages, in
completion order. -/
theorem raster_yield_indices (rnd : ℤ → SourceImage) (dpi : ℤ) (total : ℕ)
    (order : List ℤ) :
    (order.map (render_one_pageimage rnd dpi total)).map PageImage.page_index
      = order := by
  rw [List.map_map]
  exact List.map_id order

/-- Membership in a passthrough run's yields. -/
theorem mem_passthrough_yield {extract : ℤ → Option SourceImage} {total : ℕ}
    {order : List ℤ} {img : PageImage} :
    img ∈ order.filterMap (extract_embedded_pageimage extract total) ↔
      ∃ i ∈ order, ∃ d, extract i = some d ∧ pageImageOf total i d = img := by
  simp only [List.mem_filterMap, extract_embedded_pageimage,
    Option.map_eq_some']

/-- The page set actually processed is duplicate-free whenever the explicit
selection (if any) is. -/
theorem pages_to_render_nodup (total : ℕ) (selected : Option (List ℤ))
    (hsel : ∀ sel, selected = some sel → sel.Nodup) :
    (pages_to_render total selected).Nodup := by
  rcases selected with _ | sel
  · refine List.Nodup.map ?_ (List.nodup_range total)
    intro a b h
    simp only at h
    exact_mod_cast h
  · exact (hsel sel rfl).filter _

/-- Membership in the default all-pages work list. -/
theorem mem_pages_to_render_none {total : ℕ} {i : ℤ} :
    i ∈ pages_to_render total none ↔ 0 ≤ i ∧ i < (total : ℤ) := by
  show i ∈ List.map (fun n : ℕ => (n : ℤ)) (List.range total) ↔ _
  constructor
  · intro hi
    obtain ⟨a, ha, rfl⟩ := List.mem_map.mp hi
    have ha2 := List.mem_range.mp ha
    omega
  · intro hi
    refine List.mem_map.mpr ⟨i.toNat, List.mem_range.mpr ?_, ?_⟩ <;> omega

/-- Membership in an explicitly selected work list. -/
theorem mem_pages_to_render_some {total : ℕ} {sel : List ℤ} {i : ℤ} :
    i ∈ pages_to_render total (some sel) ↔
      i ∈ sel ∧ (0 ≤ i ∧ i < (total : ℤ)) := by
  simp [pages_to_render, List.mem_filter]

/-- Whatever mode runs, the yielded page indices are a subsequence of the
completion order. -/
theorem render_stream_ok_indices (total : ℕ) (dpi : Option ℤ)
    (selected : Option (List ℤ)) (extract : ℤ → Option SourceImage)
    (rnd : ℤ → SourceImage) (order : List ℤ) (imgs : List PageImage)
    (h : render_pdf_stream total dpi selected extract rnd order
      = Except.ok imgs) :
    (imgs.map PageImage.page_index).Sublist order := by
  simp only [render_pdf_stream] at h
  by_cases ht : total = 0
  · simp [ht] at h
  · rw [if_neg ht] at h
    by_cases he : selected.isSome ∧ pages_to_render total selected = []
    · rw [if_pos he] at h
      injection h with h2
      subst h2
      simp
    · rw [if_neg he] at h
      by_cases hdpi : dpi = none ∨ dpi = some 0
      · rw [if_pos hdpi] at h
        injection h with h2
        subst h2
        rw [passthrough_yield_indices]
        exact List.filter_sublist order
      · rw [if_neg hdpi] at h
        injection h with h2
        subst h2
        rw [raster_yield_indices]

/-- C9 (amended): provided the explicit selected_pages list (when given) has
no duplicate indices, every run of render_pdf_stream yields PageImages with
pairwise distinct page_index values, all within [0, total_pages); with an
explicit selection only in-range indices from that list are processed, and
nothing at all is yielded when no selected index is in range. -/
theorem render_stream_page_index_invariants (total : ℕ) (dpi : Option ℤ)
    (selected : Option (List ℤ)) (extract : ℤ → Option SourceImage)
    (rnd : ℤ → SourceImage) (order : List ℤ) (imgs : List PageImage)
    (hperm : order.Perm (pages_to_render total selected))
    (hnd : ∀ sel, selected = some sel → sel.Nodup)
    (h : render_pdf_stream total dpi selected extract rnd order
      = Except.ok imgs) :
    (imgs.map PageImage.page_index).Nodup
    ∧ (∀ img ∈ imgs, 0 ≤ img.page_index ∧ img.page_index < (total : ℤ))
    ∧ (∀ sel, selected = some sel → ∀ img ∈ imgs, img.page_index ∈ sel)
    ∧ (∀ sel, selected = some sel →
        (∀ p ∈ sel, ¬ (0 ≤ p ∧ p < (total : ℤ))) → imgs = []) := by
  have hsub := render_stream_ok_indices total dpi selected extract rnd order
    imgs h
  have hordnd : order.Nodup :=
    hperm.nodup_iff.mpr (pages_to_render_nodup total selected hnd)
  have hmem : ∀ img ∈ imgs, img.page_index ∈ pages_to_render total selected := by
    intro img hi
    exact hperm.mem_iff.mp (hsub.subset (List.mem_map_of_mem _ hi))
  refine ⟨hsub.nodup hordnd, ?_, ?_, ?_⟩
  · intro img hi
    rcases hs : selected with _ | sel
    · have hm := hmem img hi
      rw [hs, mem_pages_to_render_none] at hm
      exact hm
    · have hm := hmem img hi
      rw [hs, mem_pages_to_render_some] at hm
      exact hm.2
  · rintro sel rfl img hi
    have hm := hmem img hi
    rw [mem_pages_to_render_some] at hm
    exact hm.1
  · rintro sel rfl hout
    have hptr : pages_to_render total (some sel) = [] := by
      rw [pages_to_render]
      exact List.filter_eq_nil_iff.mpr (by simpa using hout)
    rw [hptr] at hperm
    have hord : order = [] := hperm.eq_nil
    rw [hord] at hsub
    have h2 : imgs.map PageImage.page_index = [] := List.sublist_nil.mp hsub
    simpa using h2

/-- Witness for C9 at a concrete run: a 3-page document with selection
[2, 0, 5] in passthrough mode, pages completing as [0, 2], page 2 having an
image and page 0 not. -/
theorem render_stream_page_index_invariants_witness :
    render_pdf_stream 3 none (some [2, 0, 5]) extractDemo2 (fun _ => srcDemoR)
        [0, 2]
      = Except.ok [pageImgDemo2]
    ∧ ([pageImgDemo2].map PageImage.page_index).Nodup
    ∧ (0 ≤ pageImgDemo2.page_index ∧ pageImgDemo2.page_index < (3 : ℤ))
    ∧ pageImgDemo2.page_index ∈ ([2, 0, 5] : List ℤ) := by
  have h : render_pdf_stream 3 none (some [2, 0, 5]) extractDemo2
      (fun _ => srcDemoR) [0, 2] = Except.ok [pageImgDemo2] := rfl
  have hperm : ([0, 2] : List ℤ).Perm (pages_to_render 3 (some [2, 0, 5])) := by
    rw [show pages_to_render 3 (some [2, 0, 5]) = [2, 0] from rfl]
    exact List.Perm.swap 2 0 []
  have hinv := render_stream_page_index_invariants 3 none (some [2, 0, 5])
    extractDemo2 (fun _ => srcDemoR) [0, 2] [pageImgDemo2] hperm
    (by intro sel hs; cases hs; decide) h
  exact ⟨h, hinv.1, hinv.2.1 _ (List.mem_singleton_self _),
    hinv.2.2.1 [2, 0, 5] rfl _ (List.mem_singleton_self _)⟩

/-- C9 counterexample: with the duplicated explicit selection [0, 0] both
copies are processed and yielded, so the yielded page_index values are not
unique within the run. -/
theorem render_stream_duplicate_selection_counterexample :
    pages_to_render 1 (some [0, 0]) = [0, 0]
    ∧ render_pdf_stream 1 (some 72) (some [0, 0]) (fun _ => none)
        (fun _ => srcDemoP) [0, 0]
      = Except.ok [dupPageImg, dupPageImg]
    ∧ ¬ (([dupPageImg, dupPageImg] : List PageImage).map
        PageImage.page_index).Nodup := by
  refine ⟨rfl, rfl, by decide⟩

/-- C8: in passthrough mode a page whose extraction finds no embedded image
(or fails) produces no output at all: the run still completes without error,
that page is never yielded, no rasterization fallback happens (every yield
carries dpi = 0 and comes verbatim from an extraction, and the output does
not depend on the rasterizer at all), and every sibling submitted page is
still yielded exactly when its own extraction succeeds. -/
theorem passthrough_missing_image_skips_page (total : ℕ) (dpi : Option ℤ)
    (selected : Option (List ℤ)) (extract : ℤ → Option SourceImage)
    (rnd rnd2 : ℤ → SourceImage) (order : List ℤ) (i0 : ℤ)
    (htotal : total ≠ 0) (hdpi : dpi = none ∨ dpi = some 0)
    (hperm : order.Perm (pages_to_render total selected))
    (hmiss : extract i0 = none) :
    ∃ imgs,
      render_pdf_stream total dpi selected extract rnd order = Except.ok imgs
      ∧ (∀ img ∈ imgs, img.page_index ≠ i0)
      ∧ (∀ img ∈ imgs, img.dpi = 0
          ∧ extract img.page_index = some (sourceImageOf img))
      ∧ (∀ j ∈ order, ((∃ img ∈ imgs, img.page_index = j)
          ↔ (extract j).isSome))
      ∧ render_pdf_stream total dpi selected extract rnd order
        = render_pdf_stream total dpi selected extract rnd2 order := by
  by_cases he : selected.isSome ∧ pages_to_render total selected = []
  · refine ⟨[], ?_, by simp, by simp, ?_, ?_⟩
    · simp only [render_pdf_stream, if_neg htotal, if_pos he]
    · intro j hj
      rw [he.2] at hperm
      rw [hperm.eq_nil] at hj
      cases hj
    · simp only [render_pdf_stream, if_neg htotal, if_pos he]
  · refine ⟨order.filterMap (extract_embedded_pageimage extract total),
      ?_, ?_, ?_, ?_, ?_⟩
    · simp only [render_pdf_stream, if_neg htotal, if_neg he, if_pos hdpi]
    · intro img hi
      obtain ⟨i, _, d, hd, himg⟩ := mem_passthrough_yield.mp hi
      intro hpi
      rw [← himg] at hpi
      have hii : i = i0 := hpi
      rw [hii, hmiss] at hd
      cases hd
    · intro img hi
      obtain ⟨i, _, d, hd, himg⟩ := mem_passthrough_yield.mp hi
      subst himg
      exact ⟨rfl, hd⟩
    · intro j hj
      constructor
      · rintro ⟨img, hi, hpi⟩
        obtain ⟨i, _, d, hd, himg⟩ := mem_passthrough_yield.mp hi
        rw [← himg] at hpi
        have hij : i = j := hpi
        rw [hij] at hd
        rw [hd]
        rfl
      · intro hsome
        rcases hd : extract j with _ | d
        · rw [hd] at hsome
          cases hsome
        · exact ⟨_, mem_passthrough_yield.mpr ⟨j, hj, d, hd, rfl⟩, rfl⟩
    · simp only [render_pdf_stream, if_neg htotal, if_neg he, if_pos hdpi]

/-- Witness for C8 at a concrete run: a 2-page passthrough document where
page 0 has no embedded image and page 1 does; page 0 is skipped silently and
page 1 is still yielded. -/
theorem passthrough_missing_image_skips_page_witness :
    ∃ imgs,
      render_pdf_stream 2 none none extractDemo1 (fun _ => srcDemoR) [0, 1]
        = Except.ok imgs
      ∧ (∀ img ∈ imgs, img.page_index ≠ 0)
      ∧ (∀ img ∈ imgs, img.dpi = 0
          ∧ extractDemo1 img.page_index = some (sourceImageOf img))
      ∧ (∀ j ∈ ([0, 1] : List ℤ),
          ((∃ img ∈ imgs, img.page_index = j) ↔ (extractDemo1 j).isSome))
      ∧ render_pdf_stream 2 none none extractDemo1 (fun _ => srcDemoR) [0, 1]
        = render_pdf_stream 2 none none extractDemo1 (fun _ => srcDemoR2)
            [0, 1] :=
  passthrough_missing_image_skips_page 2 none none extractDemo1
    (fun _ => srcDemoR) (fun _ => srcDemoR2) [0, 1] 0
    (by decide) (Or.inl rfl)
    (by rw [show pages_to_render 2 none = [0, 1] from rfl]) rfl

/-! ### C4: rotation correction in write_final -/

/-- C4: write_final processes the pages in order; a page without an overlay
is added unchanged; a page with an overlay and rotation 90/180/270 has the
overlay merged after the inverse rotation followed by the translation by the
page's width/height ((0,h), (w,h), (w,0) respectively); any other rotation
value merges the overlay with no correction; in particular a 612x792pt page
with rotation 90 uses rotate(-90) then translate(0, 792). -/
theorem write_final_rotation_correction (pages : List FinalPage) (p : FinalPage) :
    write_final pages = pages.map write_final_page
    ∧ (p.hasOverlay = false → write_final_page p = PageOutput.unchanged)
    ∧ (p.hasOverlay = true → p.rotation = 90 →
        write_final_page p
          = PageOutput.merged (MergeOp.transformed ⟨-90, 0, p.height⟩))
    ∧ (p.hasOverlay = true → p.rotation = 180 →
        write_final_page p
          = PageOutput.merged (MergeOp.transformed ⟨-180, p.width, p.height⟩))
    ∧ (p.hasOverlay = true → p.rotation = 270 →
        write_final_page p
          = PageOutput.merged (MergeOp.transformed ⟨-270, p.width, 0⟩))
    ∧ (p.hasOverlay = true → p.rotation ≠ 90 → p.rotation ≠ 180 →
        p.rotation ≠ 270 → write_final_page p = PageOutput.merged MergeOp.plain)
    ∧ write_final_page ⟨90, 612, 792, true⟩
        = PageOutput.merged (MergeOp.transformed ⟨-90, 0, 792⟩) := by
  refine ⟨rfl, ?_, ?_, ?_, ?_, ?_, by simp [write_final_page, rotationCorrection]⟩
  · intro hov
    simp [write_final_page, hov]
  · intro hov hrot
    simp [write_final_page, rotationCorrection, hov, hrot]
  · intro hov hrot
    simp [write_final_page, rotationCorrection, hov, hrot]
  · intro hov hrot
    simp [write_final_page, rotationCorrection, hov, hrot]
  · intro hov h90 h180 h270
    simp [write_final_page, rotationCorrection, hov, h90, h180, h270]

/-- Witness for C4 at concrete pages: the rotated page of the claim gets the
rotate(-90)/translate(0,792) correction and an overlay-less page passes
through unchanged. -/
theorem write_final_rotation_correction_witness :
    write_final_page ⟨90, 612, 792, true⟩
        = PageOutput.merged (MergeOp.transformed ⟨-90, 0, 792⟩)
    ∧ write_final_page ⟨0, 612, 792, false⟩ = PageOutput.unchanged :=
  ⟨(write_final_rotation_correction [] ⟨90, 612, 792, true⟩).2.2.1 rfl rfl,
    (write_final_rotation_correction [] ⟨0, 612, 792, false⟩).2.1 rfl⟩

/-! ### C10: decimal rendering and parsing -/

/-- digitChar of a digit value is its decimal digit. -/
theorem digitVal_digitChar {n : ℕ} (h : n < 10) : digitVal (digitChar n) = n := by
  interval_cases n <;> rfl

/-- digitChar of a digit value is a digit character. -/
theorem isDigitChar_digitChar {n : ℕ} (h : n < 10) :
    isDigitChar (digitChar n) = true := by
  interval_cases n <;> rfl

/-- Digit characters are not commas, dashes or whitespace. -/
theorem digit_not_special {c : Char} (h : isDigitChar c = true) :
    c ≠ ',' ∧ c ≠ '-' ∧ isPySpace c = false := by
  rw [isDigitChar, decide_eq_true_eq] at h
  refine ⟨?_, ?_, ?_⟩
  · rintro rfl
    revert h
    decide
  · rintro rfl
    revert h
    decide
  · rw [isPySpace, decide_eq_false_iff_not]
    rintro (rfl | rfl | rfl | rfl | rfl | rfl) <;> revert h <;> decide

/-- With enough fuel, the decimal rendering is nonempty. -/
theorem natToCharsAux_ne_nil : ∀ (fuel n : ℕ), n < fuel →
    natToCharsAux fuel n ≠ [] := by
  intro fuel
  induction fuel with
  | zero => intro n h; omega
  | succ fuel ih =>
    intro n _
    rw [natToCharsAux]
    by_cases h10 : n < 10
    · rw [if_pos h10]
      simp
    · rw [if_neg h10]
      simp

/-- With enough fuel, every character of the decimal rendering is a digit. -/
theorem natToCharsAux_digits : ∀ (fuel n : ℕ), n < fuel →
    ∀ c ∈ natToCharsAux fuel n, isDigitChar c = true := by
  intro fuel
  induction fuel with
  | zero => intro n h; omega
  | succ fuel ih =>
    intro n hn c hc
    rw [natToCharsAux] at hc
    by_cases h10 : n < 10
    · rw [if_pos h10] at hc
      rw [List.mem_singleton.mp hc]
      exact isDigitChar_digitChar h10
    · rw [if_neg h10] at hc
      rcases List.mem_append.mp hc with hc | hc
      · exact ih (n / 10) (by omega) c hc
      · rw [List.mem_singleton.mp hc]
        exact isDigitChar_digitChar (Nat.mod_lt _ (by omega))

/-- With enough fuel, decimal parsing inverts decimal rendering. -/
theorem charsToNat_natToCharsAux : ∀ (fuel n : ℕ), n < fuel →
    charsToNat (natToCharsAux fuel n) = n := by
  intro fuel
  induction fuel with
  | zero => intro n h; omega
  | succ fuel ih =>
    intro n hn
    rw [natToCharsAux]
    by_cases h10 : n < 10
    · rw [if_pos h10]
      show 10 * 0 + digitVal (digitChar n) = n
      rw [digitVal_digitChar h10]
      omega
    · rw [if_neg h10]
      rw [charsToNat, List.foldl_append]
      rw [show List.foldl (fun acc c => 10 * acc + digitVal c) 0
          (natToCharsAux fuel (n / 10))
          = charsToNat (natToCharsAux fuel (n / 10)) from rfl]
      rw [ih (n / 10) (by omega)]
      show 10 * (n / 10) + digitVal (digitChar (n % 10)) = n
      rw [digitVal_digitChar (Nat.mod_lt _ (by omega))]
      omega

/-- Decimal rendering is nonempty. -/
theorem natToChars_ne_nil (n : ℕ) : natToChars n ≠ [] :=
  natToCharsAux_ne_nil (n + 1) n (Nat.lt_succ_self n)

/-- Every character of a decimal rendering is a digit. -/
theorem natToChars_digits (n : ℕ) : ∀ c ∈ natToChars n, isDigitChar c = true :=
  natToCharsAux_digits (n + 1) n (Nat.lt_succ_self n)

/-- int(str(n)) = n: decimal parsing inverts decimal rendering. -/
theorem charsToNat_natToChars (n : ℕ) : charsToNat (natToChars n) = n :=
  charsToNat_natToCharsAux (n + 1) n (Nat.lt_succ_self n)

/-- A dash is not among the characters of a decimal rendering. -/
theorem dash_not_mem_natToChars (n : ℕ) : '-' ∉ natToChars n := by
  intro h
  exact absurd rfl (digit_not_special (natToChars_digits n _ h)).2.1

/-! ### C10: splitting, stripping and joining -/

/-- Splitting a string that does not contain the separator gives one part. -/
theorem splitChar_eq_single {sep : Char} :
    ∀ {s : List Char}, sep ∉ s → splitChar sep s = [s] := by
  intro s
  induction s with
  | nil => intro _; rfl
  | cons c cs ih =>
    intro h
    have hc : ¬ c = sep := fun hcs => h (hcs ▸ List.mem_cons_self c cs)
    rw [splitChar, if_neg hc, ih (fun hm => h (List.mem_cons_of_mem c hm))]

/-- Splitting a ++ sep :: b when a does not contain the separator peels off
a as the first part. -/
theorem splitChar_append {sep : Char} :
    ∀ {a : List Char}, sep ∉ a → ∀ (b : List Char),
      splitChar sep (a ++ sep :: b) = a :: splitChar sep b := by
  intro a
  induction a with
  | nil =>
    intro _ b
    show splitChar sep (sep :: b) = [] :: splitChar sep b
    rw [splitChar, if_pos rfl]
  | cons c a' ih =>
    intro h b
    have hc : ¬ c = sep := fun hcs => h (hcs ▸ List.mem_cons_self c a')
    rw [List.cons_append, splitChar, if_neg hc,
      ih (fun hm => h (List.mem_cons_of_mem c hm)) b]

/-- Splitting the comma-join of comma-free tokens recovers the tokens. -/
theorem splitChar_joinComma :
    ∀ (tokens : List (List Char)), tokens ≠ [] →
      (∀ t ∈ tokens, ',' ∉ t) →
      splitChar ',' (joinComma tokens) = tokens := by
  intro tokens
  induction tokens with
  | nil => intro h; exact absurd rfl h
  | cons t ts ih =>
    intro _ hfree
    cases ts with
    | nil =>
      show splitChar ',' t = [t]
      exact splitChar_eq_single (hfree t (List.mem_cons_self t []))
    | cons t2 ts' =>
      show splitChar ',' (t ++ ',' :: joinComma (t2 :: ts')) = _
      rw [splitChar_append (hfree t (List.mem_cons_self t _)) _]
      rw [ih (by simp) (fun u hu => hfree u (List.mem_cons_of_mem t hu))]

/-- The join of nonempty tokens is nonempty. -/
theorem joinComma_ne_nil :
    ∀ (tokens : List (List Char)), tokens ≠ [] →
      (∀ t ∈ tokens, t ≠ []) → joinComma tokens ≠ [] := by
  intro tokens
  induction tokens with
  | nil => intro h; exact absurd rfl h
  | cons t ts _ =>
    intro _ hne
    cases ts with
    | nil => exact hne t (List.mem_cons_self t [])
    | cons t2 ts' =>
      show t ++ ',' :: joinComma (t2 :: ts') ≠ []
      simp

/-- Every character of the join is a character of some token or a comma. -/
theorem mem_joinComma :
    ∀ (tokens : List (List Char)) (c : Char), c ∈ joinComma tokens →
      (∃ t ∈ tokens, c ∈ t) ∨ c = ',' := by
  intro tokens
  induction tokens with
  | nil => intro c hc; cases hc
  | cons t ts ih =>
    intro c hc
    cases ts with
    | nil => exact Or.inl ⟨t, List.mem_cons_self t [], hc⟩
    | cons t2 ts' =>
      rw [show joinComma (t :: t2 :: ts') = t ++ ',' :: joinComma (t2 :: ts')
        from rfl] at hc
      rcases List.mem_append.mp hc with hc | hc
      · exact Or.inl ⟨t, List.mem_cons_self t _, hc⟩
      · rcases List.mem_cons.mp hc with hc | hc
        · exact Or.inr hc
        · rcases ih c hc with ⟨u, hu, hcu⟩ | hc
          · exact Or.inl ⟨u, List.mem_cons_of_mem t hu, hcu⟩
          · exact Or.inr hc

/-- Stripping a string with no whitespace characters is the identity. -/
theorem stripChars_eq_self {s : List Char}
    (h : ∀ c ∈ s, isPySpace c = false) : stripChars s = s := by
  have hdrop : ∀ t : List Char, (∀ c ∈ t, isPySpace c = false) →
      t.dropWhile isPySpace = t := by
    intro t ht
    cases t with
    | nil => rfl
    | cons c cs =>
      rw [List.dropWhile_cons, ht c (List.mem_cons_self c cs)]
      simp
  rw [stripChars, hdrop s h, hdrop s.reverse
    (fun c hc => h c (List.mem_reverse.mp hc)), List.reverse_reverse]

/-! ### C10: the page-set accumulator -/

/-- Membership after repeatedly adding elements to the set. -/
theorem mem_foldl_insert :
    ∀ (l acc : List ℕ) (x : ℕ),
      x ∈ l.foldl (fun a p => a.insert p) acc ↔ x ∈ acc ∨ x ∈ l := by
  intro l
  induction l with
  | nil =>
    intro acc x
    simp
  | cons p l' ih =>
    intro acc x
    rw [List.foldl_cons, ih (acc.insert p) x, List.mem_insert_iff,
      List.mem_cons]
    tauto

/-- Set adds keep the accumulator duplicate-free. -/
theorem nodup_foldl_insert :
    ∀ (l acc : List ℕ), acc.Nodup →
      (l.foldl (fun a p => a.insert p) acc).Nodup := by
  intro l
  induction l with
  | nil => intro acc h; exact h
  | cons p l' ih => intro acc h; exact ih _ h.insert

/-- Membership after adding the pages of a 1-based run [s, e]. -/
theorem mem_addRange {acc : List ℕ} {s e x : ℕ} (h1 : 1 ≤ s) (hse : s ≤ e) :
    x ∈ addRange acc s e ↔ x ∈ acc ∨ (s - 1 ≤ x ∧ x < e) := by
  rw [addRange, mem_foldl_insert]
  constructor
  · rintro (h | h)
    · exact Or.inl h
    · have := List.mem_range'_1.mp h
      exact Or.inr (by omega)
  · rintro (h | h)
    · exact Or.inl h
    · exact Or.inr (List.mem_range'_1.mpr (by omega))

/-- Adding a run keeps the accumulator duplicate-free. -/
theorem nodup_addRange {acc : List ℕ} {s e : ℕ} (h : acc.Nodup) :
    (addRange acc s e).Nodup :=
  nodup_foldl_insert _ _ h

/-- A singleton page behaves like the one-element run [s, s]. -/
theorem insert_eq_addRange_self {acc : List ℕ} {s : ℕ} (h1 : 1 ≤ s) :
    acc.insert (s - 1) = addRange acc s s := by
  rw [addRange, show s - (s - 1) = 1 from by omega]
  rfl

/-! ### C10: parsing one rendered token -/

/-- Validation succeeds exactly on 1-based pages within the document. -/
theorem validate_page_number_ok {p total : ℕ} (h1 : 1 ≤ p) (h2 : p ≤ total) :
    validate_page_number p total = Except.ok () := by
  unfold validate_page_number
  rw [if_neg (show ¬ p < 1 by omega), if_neg (show ¬ total < p by omega)]

/-- Parsing the rendered singleton token "s" adds page s-1. -/
theorem parsePart_natToChars_single {total : ℕ} {acc : List ℕ} {s : ℕ}
    (h1 : 1 ≤ s) (het : s ≤ total) :
    parsePart total acc (natToChars s) = Except.ok (acc.insert (s - 1)) := by
  have hv := validate_page_number_ok h1 het
  simp only [parsePart]
  rw [if_neg (natToChars_ne_nil s), if_neg (dash_not_mem_natToChars s),
    if_pos (List.all_eq_true.mpr (natToChars_digits s)), charsToNat_natToChars]
  split
  next e he =>
    rw [hv] at he
    exact Except.noConfusion he
  next u hu => rfl

/-- Parsing the rendered run token "s-e" adds pages s-1 .. e-1. -/
theorem parsePart_natToChars_range {total : ℕ} {acc : List ℕ} {s e : ℕ}
    (h1 : 1 ≤ s) (hse : s < e) (het : e ≤ total) :
    parsePart total acc (natToChars s ++ '-' :: natToChars e)
      = Except.ok (addRange acc s e) := by
  have hvs := validate_page_number_ok h1 (le_trans (le_of_lt hse) het)
  have hve := validate_page_number_ok (by omega) het
  have hsplit : splitChar '-' (natToChars s ++ '-' :: natToChars e)
      = [natToChars s, natToChars e] := by
    rw [splitChar_append (dash_not_mem_natToChars s) _,
      splitChar_eq_single (dash_not_mem_natToChars e)]
  simp only [parsePart]
  rw [if_neg (show ¬ natToChars s ++ '-' :: natToChars e = [] by simp),
    if_pos (show ('-') ∈ natToChars s ++ '-' :: natToChars e by simp), hsplit]
  split
  next a b hab =>
    simp only [List.cons.injEq, and_true] at hab
    obtain ⟨ha, hb⟩ := hab
    subst ha
    subst hb
    rw [if_pos ⟨natToChars_ne_nil s, List.all_eq_true.mpr (natToChars_digits s),
      natToChars_ne_nil e, List.all_eq_true.mpr (natToChars_digits e)⟩,
      charsToNat_natToChars, charsToNat_natToChars,
      if_neg (show ¬ e < s by omega)]
    split
    next err he =>
      rw [hvs] at he
      exact Except.noConfusion he
    next u hu =>
      split
      next err he =>
        rw [hve] at he
        exact Except.noConfusion he
      next u2 hu2 => rfl
  next hnomatch =>
    exact absurd rfl (hnomatch (natToChars s) (natToChars e))

/-- Parsing any rendered run token adds exactly its pages. -/
theorem parsePart_renderRange {total : ℕ} {acc : List ℕ} {r : ℕ × ℕ}
    (h1 : 1 ≤ r.1) (hse : r.1 ≤ r.2) (het : r.2 ≤ total) :
    parsePart total acc (renderRange r)
      = Except.ok (addRange acc r.1 r.2) := by
  obtain ⟨s, e⟩ := r
  simp only at h1 hse het
  by_cases heq : s = e
  · subst heq
    rw [show renderRange (s, s) = natToChars s from by simp [renderRange]]
    rw [parsePart_natToChars_single h1 het, insert_eq_addRange_self h1]
  · rw [show renderRange (s, e) = natToChars s ++ '-' :: natToChars e from
      by simp [renderRange, heq]]
    exact parsePart_natToChars_range h1 (lt_of_le_of_ne hse heq) het

/-- Folding the parser over a list of valid rendered tokens accumulates
exactly the union of their runs. -/
theorem foldlM_parsePart_renderRanges {total : ℕ} (prs : List (ℕ × ℕ))
    (hv : ∀ r ∈ prs, 1 ≤ r.1 ∧ r.1 ≤ r.2 ∧ r.2 ≤ total) :
    ∀ acc : List ℕ,
      (prs.map renderRange).foldlM (parsePart total) acc
        = Except.ok (prs.foldl (fun a r => addRange a r.1 r.2) acc) := by
  induction prs with
  | nil => intro acc; rfl
  | cons r prs' ih =>
    intro acc
    obtain ⟨hr1, hr2, hr3⟩ := hv r (List.mem_cons_self r prs')
    rw [List.map_cons, List.foldlM_cons, parsePart_renderRange hr1 hr2 hr3]
    rw [show (Except.ok (addRange acc r.1 r.2) >>=
        fun init => (prs'.map renderRange).foldlM (parsePart total) init)
        = (prs'.map renderRange).foldlM (parsePart total)
            (addRange acc r.1 r.2) from rfl]
    rw [ih (fun x hx => hv x (List.mem_cons_of_mem r hx)) _, List.foldl_cons]

/-! ### C10: the run-grouping loop of format_page_ranges -/

/-- The grouping loop always emits at least one run. -/
theorem rangesLoop_ne_nil : ∀ (ps : List ℕ) (start e : ℕ),
    rangesLoop start e ps ≠ [] := by
  intro ps
  induction ps with
  | nil =>
    intro start e
    simp [rangesLoop]
  | cons p ps' ih =>
    intro start e
    rw [rangesLoop]
    by_cases hp : p = e + 1
    · rw [if_pos hp]
      exact ih start p
    · rw [if_neg hp]
      simp

/-- Every emitted run is ordered and its endpoints are drawn from the
initial run endpoints and the remaining pages. -/
theorem rangesLoop_mem_bounds :
    ∀ (ps : List ℕ) (start e : ℕ), start ≤ e →
      ∀ r ∈ rangesLoop start e ps,
        r.1 ≤ r.2 ∧ r.1 ∈ start :: ps ∧ r.2 ∈ e :: ps := by
  intro ps
  induction ps with
  | nil =>
    intro start e hse r hr
    rw [rangesLoop] at hr
    rw [List.mem_singleton.mp hr]
    exact ⟨hse, List.mem_cons_self _ _, List.mem_cons_self _ _⟩
  | cons p ps' ih =>
    intro start e hse r hr
    rw [rangesLoop] at hr
    by_cases hp : p = e + 1
    · rw [if_pos hp] at hr
      obtain ⟨h1, h2, h3⟩ := ih start p (by omega) r hr
      refine ⟨h1, ?_, ?_⟩
      · rcases List.mem_cons.mp h2 with h | h
        · rw [h]
          exact List.mem_cons_self _ _
        · exact List.mem_cons_of_mem _ (List.mem_cons_of_mem _ h)
      · rcases List.mem_cons.mp h3 with h | h
        · rw [h]
          exact List.mem_cons_of_mem _ (List.mem_cons_self _ _)
        · exact List.mem_cons_of_mem _ (List.mem_cons_of_mem _ h)
    · rw [if_neg hp] at hr
      rcases List.mem_cons.mp hr with h | h
      · rw [h]
        exact ⟨hse, List.mem_cons_self _ _, List.mem_cons_self _ _⟩
      · obtain ⟨h1, h2, h3⟩ := ih p p (le_refl p) r h
        refine ⟨h1, ?_, ?_⟩
        · rcases List.mem_cons.mp h2 with h' | h'
          · rw [h']
            exact List.mem_cons_of_mem _ (List.mem_cons_self _ _)
          · exact List.mem_cons_of_mem _ (List.mem_cons_of_mem _ h')
        · rcases List.mem_cons.mp h3 with h' | h'
          · rw [h']
            exact List.mem_cons_of_mem _ (List.mem_cons_self _ _)
          · exact List.mem_cons_of_mem _ (List.mem_cons_of_mem _ h')

/-- Coverage: on a strictly ascending page list, the emitted runs cover
exactly the current run plus the remaining pages. -/
theorem rangesLoop_cover :
    ∀ (ps : List ℕ) (start e : ℕ), start ≤ e →
      List.Pairwise (· < ·) (e :: ps) → ∀ q : ℕ,
      ((∃ r ∈ rangesLoop start e ps, r.1 ≤ q ∧ q ≤ r.2)
        ↔ ((start ≤ q ∧ q ≤ e) ∨ q ∈ ps)) := by
  intro ps
  induction ps with
  | nil =>
    intro start e hse _ q
    simp [rangesLoop]
  | cons p ps' ih =>
    intro start e hse hpw q
    have hep : e < p := (List.pairwise_cons.mp hpw).1 p (List.mem_cons_self _ _)
    have hpw' : List.Pairwise (· < ·) (p :: ps') := by
      have htl := (List.pairwise_cons.mp hpw).2
      exact htl
    rw [rangesLoop]
    by_cases hp : p = e + 1
    · rw [if_pos hp, ih start p (by omega) hpw' q]
      simp only [List.mem_cons]
      constructor
      · rintro (⟨hq1, hq2⟩ | hm)
        · by_cases hqe : q ≤ e
          · exact Or.inl ⟨hq1, hqe⟩
          · exact Or.inr (Or.inl (by omega))
        · exact Or.inr (Or.inr hm)
      · rintro (⟨hq1, hq2⟩ | rfl | hm)
        · exact Or.inl ⟨hq1, by omega⟩
        · exact Or.inl ⟨by omega, by omega⟩
        · exact Or.inr hm
    · rw [if_neg hp]
      have ihp := ih p p (le_refl p) hpw' q
      constructor
      · rintro ⟨r, hr, hq⟩
        rcases List.mem_cons.mp hr with h | h
        · rw [h] at hq
          exact Or.inl hq
        · rcases ihp.mp ⟨r, h, hq⟩ with ⟨h1, h2⟩ | hm
          · exact Or.inr (List.mem_cons.mpr (Or.inl (by omega)))
          · exact Or.inr (List.mem_cons.mpr (Or.inr hm))
      · rintro (hq | hm)
        · exact ⟨(start, e), List.mem_cons_self _ _, hq⟩
        · rcases List.mem_cons.mp hm with rfl | hm'
          · obtain ⟨r, hr, hq⟩ := ihp.mpr (Or.inl ⟨le_refl q, le_refl q⟩)
            exact ⟨r, List.mem_cons_of_mem _ hr, hq⟩
          · obtain ⟨r, hr, hq⟩ := ihp.mpr (Or.inr hm')
            exact ⟨r, List.mem_cons_of_mem _ hr, hq⟩

/-! ### C10: accumulating all runs -/

/-- Membership after folding addRange over a list of ordered runs. -/
theorem mem_foldl_addRange (prs : List (ℕ × ℕ))
    (hv : ∀ r ∈ prs, 1 ≤ r.1 ∧ r.1 ≤ r.2) :
    ∀ (acc : List ℕ) (x : ℕ),
      x ∈ prs.foldl (fun a r => addRange a r.1 r.2) acc
        ↔ x ∈ acc ∨ ∃ r ∈ prs, r.1 - 1 ≤ x ∧ x < r.2 := by
  induction prs with
  | nil =>
    intro acc x
    simp
  | cons r prs' ih =>
    intro acc x
    obtain ⟨h1, h2⟩ := hv r (List.mem_cons_self _ _)
    rw [List.foldl_cons, ih (fun u hu => hv u (List.mem_cons_of_mem _ hu)),
      mem_addRange h1 h2]
    constructor
    · rintro ((hx | hrun) | ⟨u, hu, hx⟩)
      · exact Or.inl hx
      · exact Or.inr ⟨r, List.mem_cons_self _ _, hrun⟩
      · exact Or.inr ⟨u, List.mem_cons_of_mem _ hu, hx⟩
    · rintro (hx | ⟨u, hu, hx⟩)
      · exact Or.inl (Or.inl hx)
      · rcases List.mem_cons.mp hu with rfl | hu'
        · exact Or.inl (Or.inr hx)
        · exact Or.inr ⟨u, hu', hx⟩

/-- Folding addRange keeps the accumulator duplicate-free. -/
theorem nodup_foldl_addRange (prs : List (ℕ × ℕ)) :
    ∀ acc : List ℕ, acc.Nodup →
      (prs.foldl (fun a r => addRange a r.1 r.2) acc).Nodup := by
  induction prs with
  | nil => intro acc h; exact h
  | cons r prs' ih => intro acc h; exact ih _ (nodup_addRange h)

/-- Every successful parsePart step keeps the page set duplicate-free. -/
theorem parsePart_nodup {total : ℕ} {acc acc' : List ℕ} {part : List Char}
    (h : parsePart total acc part = Except.ok acc') (hnd : acc.Nodup) :
    acc'.Nodup := by
  simp only [parsePart] at h
  repeat' split at h
  all_goals try exact Except.noConfusion h
  all_goals injection h with h2
  all_goals subst h2
  all_goals first
    | exact hnd
    | exact nodup_addRange hnd
    | exact hnd.insert

/-- The page set of any successful parse fold is duplicate-free. -/
theorem foldlM_parsePart_nodup {total : ℕ} :
    ∀ (parts : List (List Char)) (acc s' : List ℕ),
      parts.foldlM (parsePart total) acc = Except.ok s' →
      acc.Nodup → s'.Nodup := by
  intro parts
  induction parts with
  | nil =>
    intro acc s' h hnd
    rw [List.foldlM_nil] at h
    injection h with h2
    subst h2
    exact hnd
  | cons p parts' ih =>
    intro acc s' h hnd
    rw [List.foldlM_cons] at h
    rcases hstep : parsePart total acc p with e | a'
    · rw [hstep] at h
      exact Except.noConfusion h
    · rw [hstep] at h
      rw [show (Except.ok a' >>=
          fun init => parts'.foldlM (parsePart total) init)
          = parts'.foldlM (parsePart total) a' from rfl] at h
      exact ih a' s' h (parsePart_nodup hstep hnd)

/-! ### C10: shape of rendered tokens -/

/-- A rendered run token is nonempty. -/
theorem renderRange_ne_nil (r : ℕ × ℕ) : renderRange r ≠ [] := by
  rw [renderRange]
  split
  · exact natToChars_ne_nil _
  · simp

/-- Every character of a rendered run token is a digit or a dash. -/
theorem renderRange_chars (r : ℕ × ℕ) :
    ∀ c ∈ renderRange r, isDigitChar c = true ∨ c = '-' := by
  rw [renderRange]
  split
  · intro c hc
    exact Or.inl (natToChars_digits _ c hc)
  · intro c hc
    rcases List.mem_append.mp hc with hc | hc
    · exact Or.inl (natToChars_digits _ c hc)
    · rcases List.mem_cons.mp hc with rfl | hc
      · exact Or.inr rfl
      · exact Or.inl (natToChars_digits _ c hc)

/-- Sorted-≤ duplicate-free lists of naturals are strictly sorted. -/
theorem sorted_lt_of_sorted_le_nodup {l : List ℕ}
    (hs : List.Sorted (· ≤ ·) l) (hn : l.Nodup) : List.Sorted (· < ·) l :=
  (List.Pairwise.and hs hn).imp (fun h => lt_of_le_of_ne h.1 h.2)

/-! ### C10: the round-trip theorem -/

/-- C10: for every nonempty duplicate-free list L of 0-based page indices,
all below total_pages, parse_pages(format_pages(L), total_pages) succeeds
and returns sorted(set(L)); and parse_pages, whenever it succeeds on any
input, returns a sorted, duplicate-free list of 0-based indices. -/
theorem page_ranges_round_trip (L : List ℕ) (total : ℕ)
    (hne : L ≠ []) (hnd : L.Nodup) (hlt : ∀ p ∈ L, p < total) :
    parse_pages (format_pages L) total = Except.ok (sortedSet L)
    ∧ ∀ (spec : List Char) (t : ℕ) (l : List ℕ),
        parse_pages spec t = Except.ok l →
        l.Sorted (· ≤ ·) ∧ l.Nodup := by
  constructor
  · have hSne : List.insertionSort (· ≤ ·) (L.map (· + 1)) ≠ [] := by
      intro h
      have hlen := (List.perm_insertionSort (· ≤ ·) (L.map (· + 1))).length_eq
      rw [h] at hlen
      simp only [List.length_nil, List.length_map] at hlen
      exact hne (List.length_eq_zero.mp hlen.symm)
    obtain ⟨s₀, S', hS⟩ := List.exists_cons_of_ne_nil hSne
    have hSp : (s₀ :: S').Perm (L.map (· + 1)) := by
      rw [← hS]
      exact List.perm_insertionSort _ _
    have hmemS : ∀ q, q ∈ s₀ :: S' ↔ ∃ p ∈ L, p + 1 = q := by
      intro q
      rw [hSp.mem_iff, List.mem_map]
    have hbound : ∀ q ∈ s₀ :: S', 1 ≤ q ∧ q ≤ total := by
      intro q hq
      obtain ⟨p, hp, rfl⟩ := (hmemS q).mp hq
      have := hlt p hp
      omega
    have hSsorted : List.Pairwise (· < ·) (s₀ :: S') := by
      apply sorted_lt_of_sorted_le_nodup
      · rw [← hS]
        exact List.sorted_insertionSort _ _
      · exact hSp.nodup_iff.mpr (List.Nodup.map (fun a b h => by omega) hnd)
    have hv : ∀ r ∈ rangesLoop s₀ s₀ S',
        1 ≤ r.1 ∧ r.1 ≤ r.2 ∧ r.2 ≤ total := by
      intro r hr
      obtain ⟨h12, hm1, hm2⟩ := rangesLoop_mem_bounds S' s₀ s₀ (le_refl _) r hr
      exact ⟨(hbound _ hm1).1, h12, (hbound _ hm2).2⟩
    have hfmt : format_pages L
        = joinComma ((rangesLoop s₀ s₀ S').map renderRange) := by
      simp only [format_pages, format_page_ranges]
      rw [hS]
    have htok_chars : ∀ tk ∈ (rangesLoop s₀ s₀ S').map renderRange,
        ∀ c ∈ tk, isDigitChar c = true ∨ c = '-' := by
      intro tk htk c hc
      obtain ⟨r, _, rfl⟩ := List.mem_map.mp htk
      exact renderRange_chars r c hc
    have htok_ne : ∀ tk ∈ (rangesLoop s₀ s₀ S').map renderRange, tk ≠ [] := by
      intro tk htk
      obtain ⟨r, _, rfl⟩ := List.mem_map.mp htk
      exact renderRange_ne_nil r
    have htok_comma : ∀ tk ∈ (rangesLoop s₀ s₀ S').map renderRange,
        ',' ∉ tk := by
      intro tk htk hmem
      rcases htok_chars tk htk ',' hmem with hdig | hdash
      · exact (digit_not_special hdig).1 rfl
      · exact absurd hdash (by decide)
    have htoks_ne_nil : (rangesLoop s₀ s₀ S').map renderRange ≠ [] := by
      intro h
      exact rangesLoop_ne_nil S' s₀ s₀ (List.map_eq_nil_iff.mp h)
    have hnospace : ∀ tk ∈ (rangesLoop s₀ s₀ S').map renderRange,
        ∀ c ∈ tk, isPySpace c = false := by
      intro tk htk c hc
      rcases htok_chars tk htk c hc with hdig | rfl
      · exact (digit_not_special hdig).2.2
      · decide
    have hspec_nospace :
        ∀ c ∈ joinComma ((rangesLoop s₀ s₀ S').map renderRange),
          isPySpace c = false := by
      intro c hc
      rcases mem_joinComma _ c hc with ⟨t, ht, hct⟩ | rfl
      · exact hnospace t ht c hct
      · decide
    have hspec_ne : joinComma ((rangesLoop s₀ s₀ S').map renderRange) ≠ [] :=
      joinComma_ne_nil _ htoks_ne_nil htok_ne
    rw [hfmt]
    simp only [parse_pages, parse_page_ranges]
    rw [if_neg (not_or.mpr ⟨hspec_ne, by
      rw [stripChars_eq_self hspec_nospace]
      exact hspec_ne⟩)]
    rw [splitChar_joinComma _ htoks_ne_nil htok_comma]
    rw [List.map_congr_left
      (fun t ht => stripChars_eq_self (hnospace t ht))]
    rw [show List.map (fun t : List Char => t)
        ((rangesLoop s₀ s₀ S').map renderRange)
        = (rangesLoop s₀ s₀ S').map renderRange from List.map_id _]
    rw [foldlM_parsePart_renderRanges _ hv []]
    have hFmem : ∀ x, x ∈ (rangesLoop s₀ s₀ S').foldl
        (fun a r => addRange a r.1 r.2) [] ↔ x ∈ L := by
      intro x
      rw [mem_foldl_addRange _ (fun r hr => ⟨(hv r hr).1, (hv r hr).2.1⟩) []]
      simp only [List.not_mem_nil, false_or]
      have hcov := rangesLoop_cover S' s₀ s₀ (le_refl _) hSsorted (x + 1)
      constructor
      · rintro ⟨r, hr, hx1, hx2⟩
        have h1r := (hv r hr).1
        have hmem : x + 1 ∈ s₀ :: S' := by
          rcases hcov.mp ⟨r, hr, by omega, by omega⟩ with ⟨ha, hb⟩ | hm
          · have hq : x + 1 = s₀ := by omega
            rw [hq]
            exact List.mem_cons_self _ _
          · exact List.mem_cons_of_mem _ hm
        obtain ⟨p, hp, hpq⟩ := (hmemS _).mp hmem
        have hpx : p = x := by omega
        rw [← hpx]
        exact hp
      · intro hxL
        have hx1 : x + 1 ∈ s₀ :: S' := (hmemS _).mpr ⟨x, hxL, rfl⟩
        have hrhs : (s₀ ≤ x + 1 ∧ x + 1 ≤ s₀) ∨ x + 1 ∈ S' := by
          rcases List.mem_cons.mp hx1 with hq | hm
          · exact Or.inl (by omega)
          · exact Or.inr hm
        obtain ⟨r, hr, ha, hb⟩ := hcov.mpr hrhs
        have h1r := (hv r hr).1
        exact ⟨r, hr, by omega, by omega⟩
    have hFnd : ((rangesLoop s₀ s₀ S').foldl
        (fun a r => addRange a r.1 r.2) []).Nodup :=
      nodup_foldl_addRange _ [] List.nodup_nil
    refine congrArg Except.ok ?_
    rw [sortedSet, hnd.dedup]
    exact @List.eq_of_perm_of_sorted ℕ (· < ·) inferInstance _ _
      (((List.perm_insertionSort _ _).trans
        ((List.perm_ext_iff_of_nodup hFnd hnd).mpr hFmem)).trans
        (List.perm_insertionSort _ _).symm)
      (sorted_lt_of_sorted_le_nodup (List.sorted_insertionSort _ _)
        ((List.perm_insertionSort _ _).nodup_iff.mpr hFnd))
      (sorted_lt_of_sorted_le_nodup (List.sorted_insertionSort _ _)
        ((List.perm_insertionSort _ _).nodup_iff.mpr hnd))
  · intro spec t l h
    simp only [parse_pages, parse_page_ranges] at h
    split at h
    · injection h with h2
      subst h2
      exact ⟨(List.pairwise_lt_range t).imp le_of_lt, List.nodup_range t⟩
    · split at h
      next e he => exact Except.noConfusion h
      next s hs2 =>
        injection h with h2
        subst h2
        refine ⟨List.sorted_insertionSort _ _, ?_⟩
        exact (List.perm_insertionSort _ _).nodup_iff.mpr
          (foldlM_parsePart_nodup _ _ _ hs2 List.nodup_nil)

/-- Witness for C10 at a concrete list: [0, 1, 2, 5] formats to "1-3,6" and
parsing that back under 9 total pages returns [0, 1, 2, 5]. -/
theorem page_ranges_round_trip_witness :
    parse_pages (format_pages [0, 1, 2, 5]) 9 = Except.ok [0, 1, 2, 5]
    ∧ format_pages [0, 1, 2, 5] = "1-3,6".data := by
  constructor
  · have h := (page_ranges_round_trip [0, 1, 2, 5] 9 (by decide) (by decide)
      (by decide)).1
    rw [h]
    rfl
  · rfl

end AppleOCR
